import Mathlib

/-!
# Multi-cloud backup driver (`backup/multicloud/driver.go`)

A shallow embedding of `MultiCloud.Backup`: the driver reads the volume file in
chunks of `UploadChunkSize` bytes and drives a multipart upload
(init, upload parts, complete, abort) against an object-storage client.

The storage client (`m.client`) and the volume file (`volFile`) are external to
the driver; they are taken as parameters: a state type together with the
functions the driver calls on it.  Every call made by the driver is recorded,
in order, in a trace of `Event`s.

The loop of `Backup` has no bound of its own (it ends when the file ends, or on
an error), so `Backup` takes the number of iterations allowed: when they are
used up the outcome is `Status.running`, with the calls made so far.  A run that
has returned is the same under any larger bound (`Backup_more_fuel`).

The trace is tied to the file and the client by `Issued`: replaying the events
of the trace as calls on the file and the client, from the initial states,
gives the recorded answers and ends in the final states of `Backup`
(`Backup_issued`).  The theorems on the calls made carry this statement.
-/

namespace Multicloud

/-! ## Data model -/

/-- Go `error` values: the sentinel `io.EOF`, or any other error. `nil` is `Option.none`. -/
inductive GoError where
  | EOF
  | other (msg : String)
deriving DecidableEq, Repr

/-- `UploadChunkSize = 1024 * 1024 * 50`. -/
def UploadChunkSize : Nat := 1024 * 1024 * 50

/-- Modelled from the spec: `backup.BackupSpec` is declared outside `driver.go`; the spec's
BackupDescriptor gives the backup identifier (the object key) and the destination bucket, which
the driver reads as `backup.Id` and `backup.Metadata["bucket"]`. -/
structure BackupSpec where
  Id : String
  Metadata : List (String × String)
deriving Repr

/-- Go map indexing `backup.Metadata[k]`: the zero value `""` when the key is absent. -/
def BackupSpec.metadata (backup : BackupSpec) (k : String) : String :=
  (backup.Metadata.lookup k).getD ""

/-- Modelled from the spec: `Part` is declared outside `driver.go`; the spec's Part is a
sequence number and the ETag returned by the backend, built by the driver as
`Part{PartNumber: partNum, ETag: uploadResp.ETag}`. `PartNumber` is an `int64` counter that
starts at 1 and grows by one per acknowledged upload; it is kept as a natural number (wrapping
would need `2^63` sequential uploads). -/
structure Part where
  PartNumber : Nat
  ETag : String
deriving DecidableEq, Repr

/-- Modelled from the spec: `CompleteMultipartUpload` is declared outside `driver.go`; it is
the spec's PartManifest, the ordered parts submitted at completion, filled by the driver as
`input.Part = parts`. -/
structure CompleteMultipartUpload where
  Part : List Part
deriving DecidableEq, Repr

/-- Modelled from the spec: the init response is declared outside `driver.go`; the spec's
session identifier, read by the driver as `initResp.UploadId`. -/
structure InitResp where
  UploadId : String
deriving DecidableEq, Repr

/-- Modelled from the spec: the upload-part response is declared outside `driver.go`; the
spec's integrity tag, read by the driver as `uploadResp.ETag`. -/
structure UploadResp where
  ETag : String
deriving DecidableEq, Repr

/-- What `Read(buf)` hands back: the bytes written to `buf[:size]` (so `size` is the length of
`data`) and the error value. -/
structure ReadResult where
  data : List UInt8
  err : Option GoError
deriving Repr

/-- The volume file `volFile`: `Read s n` reads into a buffer of `n` bytes from the file in
state `s`, and gives the result together with the state of the file after the read. -/
structure File (σ : Type) where
  Read : σ → Nat → ReadResult × σ

/-- The storage client `m.client` over a backend state `β`. Its methods are not part of
`driver.go`, so they are parameters of the driver: each call returns its answer and the backend
state after the call. The argument order is that of the Go calls. -/
structure Client (β : Type) where
  InitMultiPartUpload : β → String → String → Except GoError InitResp × β
  UploadPart : β → String → String → Nat → String → List UInt8 → Nat → Except GoError UploadResp × β
  CompleteMultipartUpload :
    β → String → String → String → CompleteMultipartUpload → Except GoError Unit × β
  AbortMultipartUpload : β → String → String → Option GoError × β

/-- One call made by the driver, with its arguments and its answer. -/
inductive Event where
  | init (bucket key : String) (resp : Except GoError InitResp)
  | read (size : Nat) (err : Option GoError)
  | uploadPart (bucket key : String) (partNum : Nat) (uploadId : String)
      (data : List UInt8) (length : Nat) (resp : Except GoError UploadResp)
  | complete (bucket key uploadId : String) (input : CompleteMultipartUpload)
      (resp : Except GoError Unit)
  | abort (bucket key : String) (resp : Option GoError)

/-- Whether `Backup` has returned, and with which error value. -/
inductive Status where
  | running
  | returned (err : Option GoError)
deriving DecidableEq, Repr

/-- How the read/upload loop was left: by `break`, by `return err`, or not yet. -/
inductive LoopExit where
  | broke (parts : List Part)
  | returned (err : GoError)
  | running

/-- The loop's effect: how it was left, the calls it made, and the states afterwards. -/
structure LoopResult (σ β : Type) where
  exit : LoopExit
  events : List Event
  file : σ
  backend : β

/-- The effect of one `Backup` call. -/
structure Outcome (σ β : Type) where
  ret : Status
  trace : List Event
  file : σ
  backend : β

/-! ## The driver -/

/-- The loop `for partNum := int64(1); ; partNum++ { ... }` of `Backup`, run for at most `fuel`
iterations from the given `partNum` and `parts`. -/
def uploadLoop {σ β : Type} (f : File σ) (c : Client β) (bucket key uploadId : String) :
    Nat → Nat → List Part → σ → β → LoopResult σ β
  | 0, _, _, s, b => ⟨LoopExit.running, [], s, b⟩
  | fuel + 1, partNum, parts, s, b =>
    match f.Read s UploadChunkSize with
    | (r, s1) =>
      let size := r.data.length
      match r.err with
      | some GoError.EOF => ⟨LoopExit.broke parts, [Event.read size r.err], s1, b⟩
      | some e => ⟨LoopExit.returned e, [Event.read size r.err], s1, b⟩
      | none =>
        if size = 0 then ⟨LoopExit.broke parts, [Event.read size r.err], s1, b⟩
        else
          match c.UploadPart b bucket key partNum uploadId r.data size with
          | (Except.error e, b1) =>
            ⟨LoopExit.returned e,
              [Event.read size r.err,
               Event.uploadPart bucket key partNum uploadId r.data size (Except.error e)], s1, b1⟩
          | (Except.ok uploadResp, b1) =>
            let rest := uploadLoop f c bucket key uploadId fuel (partNum + 1)
              (parts ++ [⟨partNum, uploadResp.ETag⟩]) s1 b1
            ⟨rest.exit,
              Event.read size r.err ::
                Event.uploadPart bucket key partNum uploadId r.data size (Except.ok uploadResp) ::
                rest.events,
              rest.file, rest.backend⟩

/-- `MultiCloud.Backup`, with the loop bounded by `fuel` iterations. The deferred
`AbortMultipartUpload` runs on every return after a successful init. -/
def Backup {σ β : Type} (f : File σ) (c : Client β) (fuel : Nat) (backup : BackupSpec)
    (volFile : σ) (b : β) : Outcome σ β :=
  let bucket := backup.metadata "bucket"
  let key := backup.Id
  match c.InitMultiPartUpload b bucket key with
  | (Except.error err, b1) =>
    ⟨Status.returned (some err), [Event.init bucket key (Except.error err)], volFile, b1⟩
  | (Except.ok initResp, b1) =>
    let loop := uploadLoop f c bucket key initResp.UploadId fuel 1 [] volFile b1
    match loop.exit with
    | LoopExit.running =>
      ⟨Status.running, Event.init bucket key (Except.ok initResp) :: loop.events,
        loop.file, loop.backend⟩
    | LoopExit.returned err =>
      let d := c.AbortMultipartUpload loop.backend bucket key
      ⟨Status.returned (some err),
        Event.init bucket key (Except.ok initResp) :: (loop.events ++ [Event.abort bucket key d.1]),
        loop.file, d.2⟩
    | LoopExit.broke parts =>
      match c.CompleteMultipartUpload loop.backend bucket key initResp.UploadId ⟨parts⟩ with
      | (Except.error err, b2) =>
        let d := c.AbortMultipartUpload b2 bucket key
        ⟨Status.returned (some err),
          Event.init bucket key (Except.ok initResp) ::
            (loop.events ++
              [Event.complete bucket key initResp.UploadId ⟨parts⟩ (Except.error err),
               Event.abort bucket key d.1]),
          loop.file, d.2⟩
      | (Except.ok u, b2) =>
        let a := c.AbortMultipartUpload b2 bucket key
        let d := c.AbortMultipartUpload a.2 bucket key
        ⟨Status.returned none,
          Event.init bucket key (Except.ok initResp) ::
            (loop.events ++
              [Event.complete bucket key initResp.UploadId ⟨parts⟩ (Except.ok u),
               Event.abort bucket key a.1, Event.abort bucket key d.1]),
          loop.file, d.2⟩

/-! ## Concrete files and clients -/

/-- A regular file holding the given bytes: a read returns the next `min n remaining` bytes, and
`0, io.EOF` once nothing remains. The state is the unread remainder. -/
def memFile : File (List UInt8) where
  Read := fun s n =>
    match s with
    | [] => (⟨[], some GoError.EOF⟩, [])
    | _ :: _ => (⟨s.take n, none⟩, s.drop n)

/-- A file whose reads are scripted: each read returns the next scripted result, and
`0, io.EOF` once the script is used up. -/
def scriptFile : File (List ReadResult) where
  Read := fun s _ =>
    match s with
    | [] => (⟨[], some GoError.EOF⟩, [])
    | r :: rest => (r, rest)

/-- The answers of a scripted backend. -/
structure Script where
  init : Except GoError InitResp
  uploads : List (Except GoError UploadResp)
  complete : Except GoError Unit
  abort : Option GoError

/-- A backend answering from a script: the upload answers are used up in order (a transport
error once none is left), the other calls always give the scripted answer. -/
def scriptClient : Client Script where
  InitMultiPartUpload := fun b _ _ => (b.init, b)
  UploadPart := fun b _ _ _ _ _ _ =>
    match b.uploads with
    | [] => (Except.error (GoError.other "transport"), b)
    | r :: rest => (r, { b with uploads := rest })
  CompleteMultipartUpload := fun b _ _ _ _ => (b.complete, b)
  AbortMultipartUpload := fun b _ _ => (b.abort, b)

/-- A backup request for bucket `bkt` with id `bk`. -/
def demoSpec : BackupSpec := ⟨"bk", [("bucket", "bkt")]⟩

/-- A backend on which init, two uploads and completion succeed. -/
def demoScript : Script :=
  ⟨Except.ok ⟨"u1"⟩, [Except.ok ⟨"e1"⟩, Except.ok ⟨"e2"⟩], Except.ok (), none⟩

/-- A file read in two pieces, of two bytes and of one byte. -/
def demoReads : List ReadResult := [⟨[1, 2], none⟩, ⟨[3], none⟩]

/-- A backend on which the second upload fails, and the abort fails as well. -/
def failScript : Script :=
  ⟨Except.ok ⟨"u1"⟩, [Except.ok ⟨"e1"⟩, Except.error (GoError.other "transport")],
    Except.ok (), some (GoError.other "abort")⟩

/-- A backend on which init, two uploads and completion succeed, and every abort fails. -/
def abortFailScript : Script :=
  ⟨Except.ok ⟨"u1"⟩, [Except.ok ⟨"e1"⟩, Except.ok ⟨"e2"⟩], Except.ok (),
    some (GoError.other "abort")⟩

/-- A backend on which init fails. -/
def initFailScript : Script :=
  ⟨Except.error (GoError.other "no bucket"), [], Except.ok (), none⟩

/-- A backend that rejects a completion call. -/
def rejectScript : Script :=
  ⟨Except.ok ⟨"u1"⟩, [], Except.error (GoError.other "empty manifest"), none⟩

/-- A file whose second read returns zero bytes and no error, with data left behind it. -/
def stallReads : List ReadResult := [⟨[1, 2], none⟩, ⟨[], none⟩, ⟨[4], none⟩]

/-- A backend without state on which every call succeeds. -/
def okClient : Client Unit where
  InitMultiPartUpload := fun b _ _ => (Except.ok ⟨"u1"⟩, b)
  UploadPart := fun b _ _ _ _ _ _ => (Except.ok ⟨"etag"⟩, b)
  CompleteMultipartUpload := fun b _ _ _ _ => (Except.ok (), b)
  AbortMultipartUpload := fun b _ _ => (none, b)

/-! ## Observations on a trace -/

/-- The call is an `AbortMultipartUpload`. -/
def Event.isAbort : Event → Bool
  | Event.abort _ _ _ => true
  | _ => false

/-- The call is a `CompleteMultipartUpload`. -/
def Event.isComplete : Event → Bool
  | Event.complete _ _ _ _ _ => true
  | _ => false

/-- The error of a failing step: a failed init, a read with an error other than `io.EOF`, a
failed upload or a failed completion. An abort is cleanup, not a step: its error is not one. -/
def Event.failure : Event → Option GoError
  | Event.init _ _ (Except.error e) => some e
  | Event.read _ (some GoError.EOF) => none
  | Event.read _ (some e) => some e
  | Event.uploadPart _ _ _ _ _ _ (Except.error e) => some e
  | Event.complete _ _ _ _ (Except.error e) => some e
  | _ => none

/-- A backend call, reduced to its kind and, for an upload, its sequence number. -/
inductive Call where
  | init
  | upload (partNum : Nat)
  | complete
  | abort
deriving DecidableEq, Repr

/-- The backend call an event stands for; a read of the volume file is none. -/
def Event.call : Event → Option Call
  | Event.init _ _ _ => some Call.init
  | Event.read _ _ => none
  | Event.uploadPart _ _ partNum _ _ _ _ => some (Call.upload partNum)
  | Event.complete _ _ _ _ _ => some Call.complete
  | Event.abort _ _ _ => some Call.abort

/-- The ETags returned by the acknowledged `UploadPart` calls, in call order. -/
def ackedETags (t : List Event) : List String :=
  t.filterMap fun e =>
    match e with
    | Event.uploadPart _ _ _ _ _ _ (Except.ok r) => some r.ETag
    | _ => none

/-- The sequence numbers passed to the `UploadPart` calls, in call order. -/
def uploadNumbers (t : List Event) : List Nat :=
  t.filterMap fun e =>
    match e with
    | Event.uploadPart _ _ partNum _ _ _ _ => some partNum
    | _ => none

/-- The data passed to the `UploadPart` calls, in call order. -/
def uploadPayloads (t : List Event) : List (List UInt8) :=
  t.filterMap fun e =>
    match e with
    | Event.uploadPart _ _ _ _ data _ _ => some data
    | _ => none

/-- The manifests passed to the `CompleteMultipartUpload` calls, in call order. -/
def completeInputs (t : List Event) : List (List Part) :=
  t.filterMap fun e =>
    match e with
    | Event.complete _ _ _ input _ => some input.Part
    | _ => none

/-- The call is an `InitMultiPartUpload`. -/
def Event.isInit : Event → Bool
  | Event.init _ _ _ => true
  | _ => false

/-- The read leaves the loop by `break`: it signals `io.EOF`, or returns zero bytes and no
error. -/
def Event.isBreakRead : Event → Bool
  | Event.read _ (some GoError.EOF) => true
  | Event.read 0 none => true
  | _ => false

/-- The error value of an answer: `nil` for a success. -/
def errorOf {α : Type} : Except GoError α → Option GoError
  | Except.ok _ => none
  | Except.error e => some e

/-- `Issued f c t s b s1 b1`: the events of `t` are, in order, calls applied to the file `f`
and to the client `c`, starting from the file state `s` and the backend state `b`: each
event carries the arguments handed to the call and the answer the call gives in the state
reached by the calls before it, and `s1`, `b1` are the states left by the last call. -/
def Issued {σ β : Type} (f : File σ) (c : Client β) : List Event → σ → β → σ → β → Prop
  | [], s, b, s1, b1 => s1 = s ∧ b1 = b
  | Event.read size err :: t, s, b, s1, b1 =>
    (f.Read s UploadChunkSize).1.data.length = size ∧
      (f.Read s UploadChunkSize).1.err = err ∧
      Issued f c t (f.Read s UploadChunkSize).2 b s1 b1
  | Event.init bucket key resp :: t, s, b, s1, b1 =>
    (c.InitMultiPartUpload b bucket key).1 = resp ∧
      Issued f c t s (c.InitMultiPartUpload b bucket key).2 s1 b1
  | Event.uploadPart bucket key partNum uploadId data length resp :: t, s, b, s1, b1 =>
    (c.UploadPart b bucket key partNum uploadId data length).1 = resp ∧
      Issued f c t s (c.UploadPart b bucket key partNum uploadId data length).2 s1 b1
  | Event.complete bucket key uploadId input resp :: t, s, b, s1, b1 =>
    (c.CompleteMultipartUpload b bucket key uploadId input).1 = resp ∧
      Issued f c t s (c.CompleteMultipartUpload b bucket key uploadId input).2 s1 b1
  | Event.abort bucket key resp :: t, s, b, s1, b1 =>
    (c.AbortMultipartUpload b bucket key).1 = resp ∧
      Issued f c t s (c.AbortMultipartUpload b bucket key).2 s1 b1

/-! ## The shape of a run -/

/-- One full loop iteration: the bytes read and the ETag the backend answered for them. -/
structure Round where
  data : List UInt8
  etag : String

/-- The calls of consecutive full iterations, the first with sequence number `n`. -/
def roundEvents (bucket key uploadId : String) : Nat → List Round → List Event
  | _, [] => []
  | n, r :: rs =>
    Event.read r.data.length none ::
      Event.uploadPart bucket key n uploadId r.data r.data.length (Except.ok ⟨r.etag⟩) ::
      roundEvents bucket key uploadId (n + 1) rs

/-- The parts appended by consecutive full iterations, the first with sequence number `n`. -/
def roundParts : Nat → List Round → List Part
  | _, [] => []
  | n, r :: rs => ⟨n, r.etag⟩ :: roundParts (n + 1) rs

/-- The last calls of the loop, after its full iterations, for each way of leaving it. -/
def LoopTail (bucket key uploadId : String) (next : Nat) (acc : List Part) :
    LoopExit → List Event → Prop
  | LoopExit.running, tail => tail = []
  | LoopExit.broke parts, tail =>
    parts = acc ∧ ∃ size err, tail = [Event.read size err] ∧
      (err = some GoError.EOF ∨ (err = none ∧ size = 0))
  | LoopExit.returned e, tail =>
    (∃ size, tail = [Event.read size (some e)] ∧ e ≠ GoError.EOF) ∨
    (∃ data : List UInt8, 0 < data.length ∧
      tail = [Event.read data.length none,
        Event.uploadPart bucket key next uploadId data data.length (Except.error e)])

/-- The possible runs of `Backup`: the value returned and the calls made. -/
inductive BackupShape (bucket key : String) : Status → List Event → Prop
  | initFailed (err : GoError) :
    BackupShape bucket key (Status.returned (some err))
      [Event.init bucket key (Except.error err)]
  | running (ir : InitResp) (rounds : List Round) (h : ∀ r ∈ rounds, 0 < r.data.length) :
    BackupShape bucket key Status.running
      (Event.init bucket key (Except.ok ir) :: roundEvents bucket key ir.UploadId 1 rounds)
  | readFailed (ir : InitResp) (rounds : List Round) (h : ∀ r ∈ rounds, 0 < r.data.length)
      (size : Nat) (err : GoError) (hne : err ≠ GoError.EOF) (a : Option GoError) :
    BackupShape bucket key (Status.returned (some err))
      (Event.init bucket key (Except.ok ir) :: (roundEvents bucket key ir.UploadId 1 rounds ++
        [Event.read size (some err), Event.abort bucket key a]))
  | uploadFailed (ir : InitResp) (rounds : List Round) (h : ∀ r ∈ rounds, 0 < r.data.length)
      (data : List UInt8) (hd : 0 < data.length) (err : GoError) (a : Option GoError) :
    BackupShape bucket key (Status.returned (some err))
      (Event.init bucket key (Except.ok ir) :: (roundEvents bucket key ir.UploadId 1 rounds ++
        [Event.read data.length none,
         Event.uploadPart bucket key (1 + rounds.length) ir.UploadId data data.length
           (Except.error err),
         Event.abort bucket key a]))
  | completeFailed (ir : InitResp) (rounds : List Round) (h : ∀ r ∈ rounds, 0 < r.data.length)
      (size : Nat) (rerr : Option GoError)
      (hb : rerr = some GoError.EOF ∨ (rerr = none ∧ size = 0))
      (err : GoError) (a : Option GoError) :
    BackupShape bucket key (Status.returned (some err))
      (Event.init bucket key (Except.ok ir) :: (roundEvents bucket key ir.UploadId 1 rounds ++
        [Event.read size rerr,
         Event.complete bucket key ir.UploadId ⟨roundParts 1 rounds⟩ (Except.error err),
         Event.abort bucket key a]))
  | success (ir : InitResp) (rounds : List Round) (h : ∀ r ∈ rounds, 0 < r.data.length)
      (size : Nat) (rerr : Option GoError)
      (hb : rerr = some GoError.EOF ∨ (rerr = none ∧ size = 0))
      (u : Unit) (a d : Option GoError) :
    BackupShape bucket key (Status.returned none)
      (Event.init bucket key (Except.ok ir) :: (roundEvents bucket key ir.UploadId 1 rounds ++
        [Event.read size rerr,
         Event.complete bucket key ir.UploadId ⟨roundParts 1 rounds⟩ (Except.ok u),
         Event.abort bucket key a, Event.abort bucket key d]))

/-! ## Lemmas on the loop -/

theorem uploadLoop_shape {σ β : Type} (f : File σ) (c : Client β)
    (bucket key uploadId : String) :
    ∀ (fuel partNum : Nat) (parts : List Part) (s : σ) (b : β),
      ∃ rounds : List Round, ∃ tail : List Event,
        (uploadLoop f c bucket key uploadId fuel partNum parts s b).events
            = roundEvents bucket key uploadId partNum rounds ++ tail ∧
        (∀ r ∈ rounds, 0 < r.data.length) ∧
        LoopTail bucket key uploadId (partNum + rounds.length)
          (parts ++ roundParts partNum rounds)
          (uploadLoop f c bucket key uploadId fuel partNum parts s b).exit tail := by
  intro fuel
  induction fuel with
  | zero =>
    intro partNum parts s b
    exact ⟨[], [], by simp [uploadLoop, roundEvents], by simp, by simp [uploadLoop, LoopTail]⟩
  | succ n ih =>
    intro partNum parts s b
    rcases hr : f.Read s UploadChunkSize with ⟨r, s1⟩
    rcases r with ⟨data, err⟩
    cases err with
    | some e =>
      cases e with
      | EOF =>
        refine ⟨[], [Event.read data.length (some GoError.EOF)], ?_, ?_, ?_⟩
        · simp [uploadLoop, hr, roundEvents]
        · simp
        · simp only [uploadLoop, hr, LoopTail, roundParts, List.append_nil, true_and]
          exact ⟨_, _, rfl, Or.inl rfl⟩
      | other msg =>
        refine ⟨[], [Event.read data.length (some (GoError.other msg))], ?_, ?_, ?_⟩ <;>
          simp [uploadLoop, hr, roundEvents, LoopTail, roundParts]
    | none =>
      by_cases hz : data.length = 0
      · refine ⟨[], [Event.read data.length none], ?_, ?_, ?_⟩
        · simp [uploadLoop, hr, roundEvents, hz]
        · simp
        · simp only [uploadLoop, hr, hz, LoopTail, roundParts, List.append_nil, if_true, true_and]
          exact ⟨_, _, rfl, Or.inr ⟨rfl, rfl⟩⟩
      · rcases hu : c.UploadPart b bucket key partNum uploadId data data.length with ⟨resp, b1⟩
        cases resp with
        | error e =>
          refine ⟨[], [Event.read data.length none,
            Event.uploadPart bucket key partNum uploadId data data.length (Except.error e)],
            ?_, ?_, ?_⟩
          · simp [uploadLoop, hr, roundEvents, hz, hu]
          · simp
          · simp only [uploadLoop, hr, hz, hu, LoopTail]
            exact Or.inr ⟨data, Nat.pos_of_ne_zero hz, by simp⟩
        | ok ur =>
          obtain ⟨rounds, tail, h1, h2, h3⟩ :=
            ih (partNum + 1) (parts ++ [⟨partNum, ur.ETag⟩]) s1 b1
          refine ⟨⟨data, ur.ETag⟩ :: rounds, tail, ?_, ?_, ?_⟩
          · simp [uploadLoop, hr, roundEvents, hz, hu, h1]
          · intro r hmem
            rcases List.mem_cons.mp hmem with h | h
            · subst h; exact Nat.pos_of_ne_zero hz
            · exact h2 r h
          · have e1 : partNum + (({ data := data, etag := ur.ETag } : Round) :: rounds).length
                = partNum + 1 + rounds.length := by simp; omega
            have e2 : parts ++ roundParts partNum (({ data := data, etag := ur.ETag } : Round) :: rounds)
                = parts ++ [⟨partNum, ur.ETag⟩] ++ roundParts (partNum + 1) rounds := by
              simp [roundParts]
            rw [e1, e2]
            simpa [uploadLoop, hr, hz, hu] using h3

/-- The loop never calls `AbortMultipartUpload`: replacing it changes nothing. -/
theorem uploadLoop_abort_irrelevant {σ β : Type} (f : File σ) (c : Client β)
    (a : β → String → String → Option GoError × β) (bucket key uploadId : String) :
    ∀ (fuel partNum : Nat) (parts : List Part) (s : σ) (b : β),
      uploadLoop f { c with AbortMultipartUpload := a } bucket key uploadId fuel partNum parts s b
        = uploadLoop f c bucket key uploadId fuel partNum parts s b := by
  intro fuel
  induction fuel with
  | zero => intro partNum parts s b; rfl
  | succ n ih =>
    intro partNum parts s b
    simp only [uploadLoop, ih]

/-- Once the loop has been left, allowing more iterations changes nothing. -/
theorem uploadLoop_more_fuel {σ β : Type} (f : File σ) (c : Client β)
    (bucket key uploadId : String) :
    ∀ (fuel k partNum : Nat) (parts : List Part) (s : σ) (b : β),
      (uploadLoop f c bucket key uploadId fuel partNum parts s b).exit ≠ LoopExit.running →
      uploadLoop f c bucket key uploadId (fuel + k) partNum parts s b
        = uploadLoop f c bucket key uploadId fuel partNum parts s b := by
  intro fuel
  induction fuel with
  | zero =>
    intro k partNum parts s b h
    exact absurd rfl h
  | succ n ih =>
    intro k partNum parts s b h
    have e : n + 1 + k = (n + k) + 1 := by omega
    rw [e]
    rcases hr : f.Read s UploadChunkSize with ⟨r, s1⟩
    rcases r with ⟨data, err⟩
    cases err with
    | some e0 =>
      cases e0 with
      | EOF => simp only [uploadLoop, hr]
      | other msg => simp only [uploadLoop, hr]
    | none =>
      by_cases hz : data.length = 0
      · simp only [uploadLoop, hr, hz, if_true]
      · rcases hu : c.UploadPart b bucket key partNum uploadId data data.length with ⟨resp, b1⟩
        cases resp with
        | error e0 => simp only [uploadLoop, hr, hz, if_false, hu]
        | ok ur =>
          simp only [uploadLoop, hr, hz, if_false, hu] at h ⊢
          rw [ih k _ _ s1 b1 h]

/-- Once `Backup` has returned, allowing more loop iterations changes nothing: the outcome
of a run that returns does not depend on the bound. -/
theorem Backup_more_fuel {σ β : Type} (f : File σ) (c : Client β) (fuel k : Nat)
    (backup : BackupSpec) (volFile : σ) (b : β)
    (h : (Backup f c fuel backup volFile b).ret ≠ Status.running) :
    Backup f c (fuel + k) backup volFile b = Backup f c fuel backup volFile b := by
  rcases hi : c.InitMultiPartUpload b (backup.metadata "bucket") backup.Id with ⟨resp, b1⟩
  cases resp with
  | error err => simp only [Backup, hi]
  | ok ir =>
    have hx : (uploadLoop f c (backup.metadata "bucket") backup.Id ir.UploadId fuel 1 []
        volFile b1).exit ≠ LoopExit.running := by
      intro hx
      apply h
      simp only [Backup, hi, hx]
    simp only [Backup, hi, uploadLoop_more_fuel f c _ _ _ fuel k 1 [] volFile b1 hx]

/-- The events of the loop are the calls it applies to the file and to the client, and its
final states are the states these calls leave. -/
theorem uploadLoop_issued {σ β : Type} (f : File σ) (c : Client β)
    (bucket key uploadId : String) :
    ∀ (fuel partNum : Nat) (parts : List Part) (s : σ) (b : β) (t : List Event) (s1 : σ)
      (b1 : β),
      Issued f c t (uploadLoop f c bucket key uploadId fuel partNum parts s b).file
        (uploadLoop f c bucket key uploadId fuel partNum parts s b).backend s1 b1 →
      Issued f c ((uploadLoop f c bucket key uploadId fuel partNum parts s b).events ++ t)
        s b s1 b1 := by
  intro fuel
  induction fuel with
  | zero =>
    intro partNum parts s b t s1 b1 h
    simpa only [uploadLoop, List.nil_append] using h
  | succ n ih =>
    intro partNum parts s b t s1 b1 h
    rcases hr : f.Read s UploadChunkSize with ⟨r, s2⟩
    rcases r with ⟨data, err⟩
    cases err with
    | some e0 =>
      cases e0 with
      | EOF =>
        simp only [uploadLoop, hr] at h
        simp only [uploadLoop, hr, List.cons_append, List.nil_append, Issued, true_and]
        exact h
      | other msg =>
        simp only [uploadLoop, hr] at h
        simp only [uploadLoop, hr, List.cons_append, List.nil_append, Issued, true_and]
        exact h
    | none =>
      by_cases hz : data.length = 0
      · simp only [uploadLoop, hr, hz, if_true] at h
        simp only [uploadLoop, hr, hz, if_true, List.cons_append, List.nil_append, Issued,
          true_and]
        exact h
      · rcases hu : c.UploadPart b bucket key partNum uploadId data data.length with ⟨resp, b2⟩
        cases resp with
        | error e0 =>
          simp only [uploadLoop, hr, hz, if_false, hu] at h
          simp only [uploadLoop, hr, hz, if_false, hu, List.cons_append, List.nil_append,
            Issued, true_and]
          exact h
        | ok ur =>
          simp only [uploadLoop, hr, hz, if_false, hu] at h
          simp only [uploadLoop, hr, hz, if_false, hu, List.cons_append, Issued, true_and]
          exact ih _ _ s2 b2 t s1 b1 h

/-- The trace of `Backup` is the sequence of calls `Backup` applies to the file and to the
client, with the answers they give, and the final states of `Backup` are the states these
calls leave: nothing is recorded that was not called, and nothing is called that is not
recorded. -/
theorem Backup_issued {σ β : Type} (f : File σ) (c : Client β) (fuel : Nat)
    (backup : BackupSpec) (volFile : σ) (b : β) :
    Issued f c (Backup f c fuel backup volFile b).trace volFile b
      (Backup f c fuel backup volFile b).file (Backup f c fuel backup volFile b).backend := by
  rcases hi : c.InitMultiPartUpload b (backup.metadata "bucket") backup.Id with ⟨resp, b1⟩
  cases resp with
  | error err => simp only [Backup, hi, Issued, and_self]
  | ok ir =>
    cases hx : (uploadLoop f c (backup.metadata "bucket") backup.Id ir.UploadId fuel 1 []
        volFile b1).exit with
    | running =>
      simp only [Backup, hi, hx, Issued, true_and]
      have := uploadLoop_issued f c (backup.metadata "bucket") backup.Id ir.UploadId fuel 1 []
        volFile b1 [] _ _ ⟨rfl, rfl⟩
      simpa only [List.append_nil] using this
    | returned err =>
      simp only [Backup, hi, hx, Issued, true_and]
      apply uploadLoop_issued
      simp only [Issued, and_self]
    | broke parts =>
      rcases hc : c.CompleteMultipartUpload
          (uploadLoop f c (backup.metadata "bucket") backup.Id ir.UploadId fuel 1 []
            volFile b1).backend
          (backup.metadata "bucket") backup.Id ir.UploadId ⟨parts⟩ with ⟨cr, b2⟩
      cases cr with
      | error err =>
        simp only [Backup, hi, hx, hc, Issued, true_and]
        apply uploadLoop_issued
        simp only [Issued, hc, and_self]
      | ok u =>
        simp only [Backup, hi, hx, hc, Issued, true_and]
        apply uploadLoop_issued
        simp only [Issued, hc, and_self]

/-- Every run of `Backup` has one of the six shapes. -/
theorem Backup_shape {σ β : Type} (f : File σ) (c : Client β) (fuel : Nat)
    (backup : BackupSpec) (volFile : σ) (b : β) :
    BackupShape (backup.metadata "bucket") backup.Id
      (Backup f c fuel backup volFile b).ret (Backup f c fuel backup volFile b).trace := by
  rcases hi : c.InitMultiPartUpload b (backup.metadata "bucket") backup.Id with ⟨resp, b1⟩
  cases resp with
  | error err =>
    simp only [Backup, hi]
    exact BackupShape.initFailed err
  | ok ir =>
    obtain ⟨rounds, tail, h1, h2, h3⟩ :=
      uploadLoop_shape f c (backup.metadata "bucket") backup.Id ir.UploadId fuel 1 [] volFile b1
    cases hx : (uploadLoop f c (backup.metadata "bucket") backup.Id ir.UploadId fuel 1 []
        volFile b1).exit with
    | running =>
      rw [hx] at h3
      simp only [LoopTail] at h3
      subst h3
      simp only [Backup, hi, hx, h1, List.append_nil]
      exact BackupShape.running ir rounds h2
    | returned err =>
      rw [hx] at h3
      simp only [LoopTail] at h3
      rcases h3 with ⟨size, ht, hne⟩ | ⟨data, hd, ht⟩
      · subst ht
        simp only [Backup, hi, hx, h1, List.append_assoc, List.singleton_append]
        exact BackupShape.readFailed ir rounds h2 size err hne _
      · subst ht
        simp only [Backup, hi, hx, h1, List.append_assoc, List.singleton_append,
          List.cons_append, List.nil_append]
        exact BackupShape.uploadFailed ir rounds h2 data hd err _
    | broke parts =>
      rw [hx] at h3
      simp only [LoopTail, List.nil_append] at h3
      obtain ⟨hp, size, rerr, ht, hb⟩ := h3
      subst ht
      subst hp
      rcases hc : c.CompleteMultipartUpload
          (uploadLoop f c (backup.metadata "bucket") backup.Id ir.UploadId fuel 1 []
            volFile b1).backend
          (backup.metadata "bucket") backup.Id ir.UploadId ⟨roundParts 1 rounds⟩ with ⟨cr, b2⟩
      cases cr with
      | error err =>
        simp only [Backup, hi, hx, h1, hc, List.append_assoc, List.singleton_append,
          List.cons_append, List.nil_append]
        exact BackupShape.completeFailed ir rounds h2 size rerr hb err _
      | ok u =>
        simp only [Backup, hi, hx, h1, hc, List.append_assoc, List.singleton_append,
          List.cons_append, List.nil_append]
        exact BackupShape.success ir rounds h2 size rerr hb u _ _

/-! ## Lemmas on traces -/

theorem append_cons_unique {α : Type} (p : α → Bool) (a x : α) (l2 post : List α)
    (h2 : ∀ y ∈ l2, p y = false) (hx : p x = true) :
    ∀ (l1 pre : List α), (∀ y ∈ l1, p y = false) → l1 ++ a :: l2 = pre ++ x :: post →
      pre = l1 ∧ x = a ∧ post = l2 := by
  intro l1
  induction l1 with
  | nil =>
    intro pre _ h
    cases pre with
    | nil =>
      simp only [List.nil_append, List.cons.injEq] at h
      exact ⟨rfl, h.1.symm, h.2.symm⟩
    | cons y pre' =>
      simp only [List.nil_append, List.cons_append, List.cons.injEq] at h
      have hmem : x ∈ l2 := by rw [h.2]; simp
      have := h2 x hmem
      rw [hx] at this
      exact absurd this (by decide)
  | cons z l1' ih =>
    intro pre h1 h
    cases pre with
    | nil =>
      simp only [List.nil_append, List.cons_append, List.cons.injEq] at h
      have := h1 z (by simp)
      rw [h.1, hx] at this
      exact absurd this (by decide)
    | cons y pre' =>
      simp only [List.cons_append, List.cons.injEq] at h
      obtain ⟨r1, r2, r3⟩ := ih pre' (fun y hy => h1 y (List.mem_cons_of_mem _ hy)) h.2
      exact ⟨by rw [h.1, r1], r2, r3⟩

theorem roundEvents_mem {bucket key uploadId : String} :
    ∀ (rs : List Round) (n : Nat) (e : Event), e ∈ roundEvents bucket key uploadId n rs →
      (∀ r ∈ rs, 0 < r.data.length) →
      (∃ size, 0 < size ∧ e = Event.read size none) ∨
      (∃ k data etag, 0 < data.length ∧
        e = Event.uploadPart bucket key k uploadId data data.length (Except.ok ⟨etag⟩)) := by
  intro rs
  induction rs with
  | nil => intro n e h; simp [roundEvents] at h
  | cons r rs ih =>
    intro n e h hpos
    simp only [roundEvents, List.mem_cons] at h
    rcases h with h | h | h
    · exact Or.inl ⟨_, hpos r (by simp), h⟩
    · exact Or.inr ⟨_, _, _, hpos r (by simp), h⟩
    · exact ih (n + 1) e h (fun r hr => hpos r (List.mem_cons_of_mem _ hr))

theorem ackedETags_roundEvents (bucket key uploadId : String) :
    ∀ (rs : List Round) (n : Nat),
      ackedETags (roundEvents bucket key uploadId n rs) = rs.map Round.etag := by
  intro rs
  induction rs with
  | nil => intro n; rfl
  | cons r rs ih =>
    intro n
    have := ih (n + 1)
    simp only [ackedETags] at this
    simp [roundEvents, ackedETags, this]

theorem uploadNumbers_roundEvents (bucket key uploadId : String) :
    ∀ (rs : List Round) (n : Nat),
      uploadNumbers (roundEvents bucket key uploadId n rs) = List.range' n rs.length := by
  intro rs
  induction rs with
  | nil => intro n; rfl
  | cons r rs ih =>
    intro n
    have := ih (n + 1)
    simp only [uploadNumbers] at this
    simp [roundEvents, uploadNumbers, this, List.range'_succ]

theorem uploadPayloads_roundEvents (bucket key uploadId : String) :
    ∀ (rs : List Round) (n : Nat),
      uploadPayloads (roundEvents bucket key uploadId n rs) = rs.map Round.data := by
  intro rs
  induction rs with
  | nil => intro n; rfl
  | cons r rs ih =>
    intro n
    have := ih (n + 1)
    simp only [uploadPayloads] at this
    simp [roundEvents, uploadPayloads, this]

theorem calls_roundEvents (bucket key uploadId : String) :
    ∀ (rs : List Round) (n : Nat),
      (roundEvents bucket key uploadId n rs).filterMap Event.call
        = (List.range' n rs.length).map Call.upload := by
  intro rs
  induction rs with
  | nil => intro n; rfl
  | cons r rs ih =>
    intro n
    simp [roundEvents, Event.call, ih (n + 1), List.range'_succ]

theorem roundParts_eq :
    ∀ (rs : List Round) (n : Nat),
      roundParts n rs = List.zipWith Part.mk (List.range' n rs.length) (rs.map Round.etag) := by
  intro rs
  induction rs with
  | nil => intro n; rfl
  | cons r rs ih =>
    intro n
    simp [roundParts, ih (n + 1), List.range'_succ]

theorem roundEvents_not_complete {bucket key uploadId : String} {rs : List Round} {n : Nat}
    (hpos : ∀ r ∈ rs, 0 < r.data.length) :
    ∀ e ∈ roundEvents bucket key uploadId n rs, e.isComplete = false := by
  intro e he
  rcases roundEvents_mem rs n e he hpos with ⟨_, _, h⟩ | ⟨_, _, _, _, h⟩ <;> subst h <;> rfl

theorem ackedETags_append (l1 l2 : List Event) :
    ackedETags (l1 ++ l2) = ackedETags l1 ++ ackedETags l2 := by
  simp [ackedETags]

theorem uploadNumbers_append (l1 l2 : List Event) :
    uploadNumbers (l1 ++ l2) = uploadNumbers l1 ++ uploadNumbers l2 := by
  simp [uploadNumbers]

theorem roundEvents_props {bucket key uploadId : String} {rs : List Round} {n : Nat}
    (hpos : ∀ r ∈ rs, 0 < r.data.length) :
    ∀ e ∈ roundEvents bucket key uploadId n rs,
      e.isAbort = false ∧ e.failure = none ∧ e.isInit = false ∧ e.isBreakRead = false := by
  intro e he
  rcases roundEvents_mem rs n e he hpos with ⟨size, hs, h⟩ | ⟨_, _, _, _, h⟩
  · subst h
    refine ⟨rfl, rfl, rfl, ?_⟩
    cases size with
    | zero => exact absurd hs (by decide)
    | succ m => rfl
  · subst h
    exact ⟨rfl, rfl, rfl, rfl⟩

theorem filter_isAbort_roundEvents {bucket key uploadId : String} {rs : List Round} {n : Nat}
    (hpos : ∀ r ∈ rs, 0 < r.data.length) :
    (roundEvents bucket key uploadId n rs).filter Event.isAbort = [] := by
  rw [List.filter_eq_nil_iff]
  intro e he
  simp [(roundEvents_props hpos e he).1]

theorem breakRead_failure {size : Nat} {rerr : Option GoError}
    (hb : rerr = some GoError.EOF ∨ (rerr = none ∧ size = 0)) :
    (Event.read size rerr).failure = none ∧ (Event.read size rerr).isBreakRead = true := by
  rcases hb with h | ⟨h, h0⟩
  · subst h; exact ⟨rfl, by cases size <;> rfl⟩
  · subst h; subst h0; exact ⟨rfl, rfl⟩

/-- A failing step is the last call before the single abort, and its error is returned; a
failing init is the only call. -/
theorem shape_failure {bucket key : String} {st : Status} {tr : List Event}
    (hs : BackupShape bucket key st tr) (e : Event) (err : GoError)
    (he : e ∈ tr) (hf : e.failure = some err) :
    st = Status.returned (some err) ∧
      ((tr = [e] ∧ e.isInit = true) ∨
        ∃ ir pre a, tr = Event.init bucket key (Except.ok ir) :: (pre ++ [e, Event.abort bucket key a])
          ∧ e.isInit = false ∧ ∀ x ∈ pre, x.isAbort = false ∧ x.failure = none) := by
  cases hs with
  | initFailed err0 =>
    simp only [List.mem_singleton] at he
    subst he
    simp only [Event.failure, Option.some.injEq] at hf
    subst hf
    exact ⟨rfl, Or.inl ⟨rfl, rfl⟩⟩
  | running ir rounds hpos =>
    simp only [List.mem_cons] at he
    rcases he with he | he
    · subst he; simp [Event.failure] at hf
    · rw [(roundEvents_props hpos e he).2.1] at hf; simp at hf
  | readFailed ir rounds hpos size err0 hne a =>
    simp only [List.mem_cons, List.mem_append, List.not_mem_nil, or_false] at he
    rcases he with he | he | he | he
    · subst he; simp [Event.failure] at hf
    · rw [(roundEvents_props hpos e he).2.1] at hf; simp at hf
    · subst he
      have : err0 = err := by
        cases err0 with
        | EOF => exact absurd rfl hne
        | other m => simpa [Event.failure] using hf
      subst this
      exact ⟨rfl, Or.inr ⟨ir, _, a, rfl, rfl, fun x hx =>
        ⟨(roundEvents_props hpos x hx).1, (roundEvents_props hpos x hx).2.1⟩⟩⟩
    · subst he; simp [Event.failure] at hf
  | uploadFailed ir rounds hpos data hd err0 a =>
    simp only [List.mem_cons, List.mem_append, List.not_mem_nil, or_false] at he
    rcases he with he | he | he | he | he
    · subst he; simp [Event.failure] at hf
    · rw [(roundEvents_props hpos e he).2.1] at hf; simp at hf
    · subst he; simp [Event.failure] at hf
    · subst he
      simp only [Event.failure, Option.some.injEq] at hf
      subst hf
      refine ⟨rfl, Or.inr ⟨ir, roundEvents bucket key ir.UploadId 1 rounds ++
        [Event.read data.length none], a, by simp, rfl, ?_⟩⟩
      intro x hx
      simp only [List.mem_append, List.mem_singleton] at hx
      rcases hx with hx | hx
      · exact ⟨(roundEvents_props hpos x hx).1, (roundEvents_props hpos x hx).2.1⟩
      · subst hx; exact ⟨rfl, rfl⟩
    · subst he; simp [Event.failure] at hf
  | completeFailed ir rounds hpos size rerr hb err0 a =>
    simp only [List.mem_cons, List.mem_append, List.not_mem_nil, or_false] at he
    rcases he with he | he | he | he | he
    · subst he; simp [Event.failure] at hf
    · rw [(roundEvents_props hpos e he).2.1] at hf; simp at hf
    · subst he; rw [(breakRead_failure hb).1] at hf; simp at hf
    · subst he
      simp only [Event.failure, Option.some.injEq] at hf
      subst hf
      refine ⟨rfl, Or.inr ⟨ir, roundEvents bucket key ir.UploadId 1 rounds ++
        [Event.read size rerr], a, by simp, rfl, ?_⟩⟩
      intro x hx
      simp only [List.mem_append, List.mem_singleton] at hx
      rcases hx with hx | hx
      · exact ⟨(roundEvents_props hpos x hx).1, (roundEvents_props hpos x hx).2.1⟩
      · subst hx; exact ⟨rfl, (breakRead_failure hb).1⟩
    · subst he; simp [Event.failure] at hf
  | success ir rounds hpos size rerr hb u a d =>
    simp only [List.mem_cons, List.mem_append, List.not_mem_nil, or_false] at he
    rcases he with he | he | he | he | he | he
    · subst he; simp [Event.failure] at hf
    · rw [(roundEvents_props hpos e he).2.1] at hf; simp at hf
    · subst he; rw [(breakRead_failure hb).1] at hf; simp at hf
    · subst he; simp [Event.failure] at hf
    · subst he; simp [Event.failure] at hf
    · subst he; simp [Event.failure] at hf

theorem UploadChunkSize_eq : UploadChunkSize = 52428800 := rfl

theorem shape_success {bucket key : String} {tr : List Event}
    (hs : BackupShape bucket key (Status.returned none) tr) :
    ∃ ir rounds size rerr u a d, (∀ r ∈ rounds, 0 < r.data.length) ∧
      tr = Event.init bucket key (Except.ok ir) :: (roundEvents bucket key ir.UploadId 1 rounds ++
        [Event.read size rerr,
         Event.complete bucket key ir.UploadId ⟨roundParts 1 rounds⟩ (Except.ok u),
         Event.abort bucket key a, Event.abort bucket key d]) := by
  cases hs with
  | success ir rounds hpos size rerr hb u a d => exact ⟨ir, rounds, size, rerr, u, a, d, hpos, rfl⟩

theorem uploadPayloads_cons_read (size : Nat) (err : Option GoError) (t : List Event) :
    uploadPayloads (Event.read size err :: t) = uploadPayloads t := rfl

theorem uploadPayloads_cons_upload (bucket key : String) (k : Nat) (uploadId : String)
    (data : List UInt8) (len : Nat) (resp : Except GoError UploadResp) (t : List Event) :
    uploadPayloads (Event.uploadPart bucket key k uploadId data len resp :: t)
      = data :: uploadPayloads t := rfl

theorem slices_step {α : Type} (n : Nat) (l : List α) (m : Nat) :
    (List.range (m + 1)).map (fun i => (l.drop (i * n)).take n)
      = l.take n :: (List.range m).map (fun i => ((l.drop n).drop (i * n)).take n) := by
  rw [List.range_succ_eq_map, List.map_cons, List.map_map]
  simp only [Nat.zero_mul, List.drop_zero, List.cons.injEq, true_and]
  apply List.map_congr_left
  intro i _
  simp only [Function.comp, List.drop_drop, Nat.succ_eq_add_one, Nat.add_mul, Nat.one_mul,
    Nat.add_comm]

/-- The loop on a regular file, when none of its calls fails: it is left by `break` once the
file is used up, having uploaded the consecutive slices of the file. -/
theorem memFile_loop {β : Type} (c : Client β) (bucket key uploadId : String) :
    ∀ (fuel partNum : Nat) (parts : List Part) (rem : List UInt8) (b : β),
      (rem.length + UploadChunkSize - 1) / UploadChunkSize + 1 ≤ fuel →
      (∀ e ∈ (uploadLoop memFile c bucket key uploadId fuel partNum parts rem b).events,
        e.failure = none) →
      (∃ ps, (uploadLoop memFile c bucket key uploadId fuel partNum parts rem b).exit
        = LoopExit.broke ps) ∧
      uploadPayloads (uploadLoop memFile c bucket key uploadId fuel partNum parts rem b).events
        = (List.range ((rem.length + UploadChunkSize - 1) / UploadChunkSize)).map
            (fun i => (rem.drop (i * UploadChunkSize)).take UploadChunkSize) ∧
      (uploadPayloads
        (uploadLoop memFile c bucket key uploadId fuel partNum parts rem b).events).flatten
        = rem ∧
      (∀ p ∈ uploadPayloads
          (uploadLoop memFile c bucket key uploadId fuel partNum parts rem b).events,
        p.length ≤ UploadChunkSize) ∧
      (uploadLoop memFile c bucket key uploadId fuel partNum parts rem b).file = [] := by
  intro fuel
  induction fuel with
  | zero => intro partNum parts rem b h; exact absurd h (Nat.not_succ_le_zero _)
  | succ n ih =>
    intro partNum parts rem b hfuel hok
    cases rem with
    | nil =>
      have hread : memFile.Read [] UploadChunkSize = (⟨[], some GoError.EOF⟩, []) := rfl
      have h0 : (([] : List UInt8).length + UploadChunkSize - 1) / UploadChunkSize = 0 := by
        rw [UploadChunkSize_eq]; simp
      rw [h0]
      simp only [uploadLoop, hread]
      refine ⟨⟨parts, rfl⟩, ?_, ?_, ?_, trivial⟩
      · simp [uploadPayloads]
      · simp [uploadPayloads]
      · simp [uploadPayloads]
    | cons x xs =>
      have hread : memFile.Read (x :: xs) UploadChunkSize
          = (⟨(x :: xs).take UploadChunkSize, none⟩, (x :: xs).drop UploadChunkSize) := rfl
      have hz : ¬ ((x :: xs).take UploadChunkSize).length = 0 := by
        rw [List.length_take, UploadChunkSize_eq, List.length_cons]
        omega
      have hceil : ((x :: xs).length + UploadChunkSize - 1) / UploadChunkSize
          = (((x :: xs).drop UploadChunkSize).length + UploadChunkSize - 1) / UploadChunkSize
            + 1 := by
        rw [List.length_drop, UploadChunkSize_eq, List.length_cons]
        omega
      rcases hu : c.UploadPart b bucket key partNum uploadId ((x :: xs).take UploadChunkSize)
        ((x :: xs).take UploadChunkSize).length with ⟨resp, s1⟩
      cases resp with
      | error e0 =>
        simp only [uploadLoop, hread, hz, if_false, hu] at hok
        have hbad := hok (Event.uploadPart bucket key partNum uploadId
          ((x :: xs).take UploadChunkSize) ((x :: xs).take UploadChunkSize).length
          (Except.error e0)) (List.mem_cons_of_mem _ (List.mem_singleton.mpr rfl))
        exact absurd hbad (by simp [Event.failure])
      | ok r =>
        simp only [uploadLoop, hread, hz, if_false, hu] at hok
        obtain ⟨⟨ps, hx⟩, hpay, hjoin, hle, hfile⟩ :=
          ih (partNum + 1) (parts ++ [⟨partNum, r.ETag⟩]) ((x :: xs).drop UploadChunkSize) s1
            (by rw [hceil] at hfuel; omega)
            (fun e he => hok e (List.mem_cons_of_mem _ (List.mem_cons_of_mem _ he)))
        simp only [uploadLoop, hread, hz, if_false, hu]
        refine ⟨⟨ps, hx⟩, ?_, ?_, ?_, hfile⟩
        · rw [hceil, slices_step, uploadPayloads_cons_read, uploadPayloads_cons_upload, hpay]
        · rw [uploadPayloads_cons_read, uploadPayloads_cons_upload, List.flatten_cons, hjoin]
          exact List.take_append_drop _ _
        · intro p hp
          rw [uploadPayloads_cons_read, uploadPayloads_cons_upload, List.mem_cons] at hp
          rcases hp with hp | hp
          · rw [hp]; exact List.length_take_le _ _
          · exact hle p hp

/-- After a successful init, the trace is the init call, the calls of the loop, and the calls
made after the loop. -/
theorem Backup_trace_of_init_ok {σ β : Type} (f : File σ) (c : Client β) (fuel : Nat)
    (backup : BackupSpec) (volFile : σ) (b b1 : β) (ir : InitResp)
    (hi : c.InitMultiPartUpload b (backup.metadata "bucket") backup.Id = (Except.ok ir, b1)) :
    ∃ rest, (Backup f c fuel backup volFile b).trace
      = Event.init (backup.metadata "bucket") backup.Id (Except.ok ir) ::
          ((uploadLoop f c (backup.metadata "bucket") backup.Id ir.UploadId fuel 1 []
            volFile b1).events ++ rest) := by
  cases hx : (uploadLoop f c (backup.metadata "bucket") backup.Id ir.UploadId fuel 1 []
      volFile b1).exit with
  | running => exact ⟨[], by simp only [Backup, hi, hx, List.append_nil]⟩
  | returned err => exact ⟨_, by simp only [Backup, hi, hx]; rfl⟩
  | broke parts =>
    rcases hc : c.CompleteMultipartUpload
        (uploadLoop f c (backup.metadata "bucket") backup.Id ir.UploadId fuel 1 []
          volFile b1).backend
        (backup.metadata "bucket") backup.Id ir.UploadId ⟨parts⟩ with ⟨cr, b2⟩
    cases cr with
    | error err => exact ⟨_, by simp only [Backup, hi, hx, hc]; rfl⟩
    | ok u => exact ⟨_, by simp only [Backup, hi, hx, hc]; rfl⟩

/-- On a regular file and the backend `okClient`, the loop makes no failing call. -/
theorem okClient_loop_no_failure (bucket key uploadId : String) :
    ∀ (fuel partNum : Nat) (parts : List Part) (rem : List UInt8) (b : Unit),
      ∀ e ∈ (uploadLoop memFile okClient bucket key uploadId fuel partNum parts rem b).events,
        e.failure = none := by
  intro fuel
  induction fuel with
  | zero =>
    intro partNum parts rem b e he
    simp only [uploadLoop, List.not_mem_nil] at he
  | succ n ih =>
    intro partNum parts rem b e he
    cases rem with
    | nil =>
      have hread : memFile.Read [] UploadChunkSize = (⟨[], some GoError.EOF⟩, []) := rfl
      simp only [uploadLoop, hread, List.mem_singleton] at he
      rw [he]; rfl
    | cons x xs =>
      have hread : memFile.Read (x :: xs) UploadChunkSize
          = (⟨(x :: xs).take UploadChunkSize, none⟩, (x :: xs).drop UploadChunkSize) := rfl
      have hz : ¬ ((x :: xs).take UploadChunkSize).length = 0 := by
        rw [List.length_take, UploadChunkSize_eq, List.length_cons]
        omega
      have hu : okClient.UploadPart b bucket key partNum uploadId
          ((x :: xs).take UploadChunkSize) ((x :: xs).take UploadChunkSize).length
          = (Except.ok ⟨"etag"⟩, b) := rfl
      simp only [uploadLoop, hread, hz, if_false, hu, List.mem_cons] at he
      rcases he with he | he | he
      · rw [he]; rfl
      · rw [he]; rfl
      · exact ih _ _ _ _ e he

/-- On a regular file and the backend `okClient`, no step of `Backup` fails. -/
theorem okClient_no_failure (fuel : Nat) (backup : BackupSpec) (bytes : List UInt8) :
    ∀ e ∈ (Backup memFile okClient fuel backup bytes ()).trace, e.failure = none := by
  have hi : okClient.InitMultiPartUpload () (backup.metadata "bucket") backup.Id
      = (Except.ok ⟨"u1"⟩, ()) := rfl
  have hloop := okClient_loop_no_failure (backup.metadata "bucket") backup.Id "u1" fuel 1 []
    bytes ()
  intro e he
  cases hx : (uploadLoop memFile okClient (backup.metadata "bucket") backup.Id "u1" fuel 1 []
      bytes ()).exit with
  | running =>
    simp only [Backup, hi, hx, List.mem_cons] at he
    rcases he with he | he
    · rw [he]; rfl
    · exact hloop e he
  | returned err =>
    simp only [Backup, hi, hx, List.mem_cons, List.mem_append, List.not_mem_nil,
      or_false] at he
    rcases he with he | he | he
    · rw [he]; rfl
    · exact hloop e he
    · rw [he]; rfl
  | broke parts =>
    have hc : okClient.CompleteMultipartUpload
        (uploadLoop memFile okClient (backup.metadata "bucket") backup.Id "u1" fuel 1 []
          bytes ()).backend
        (backup.metadata "bucket") backup.Id "u1" ⟨parts⟩ = (Except.ok (), ()) := rfl
    simp only [Backup, hi, hx, hc, List.mem_cons, List.mem_append, List.not_mem_nil,
      or_false] at he
    rcases he with he | he | he | he | he
    · rw [he]; rfl
    · exact hloop e he
    · rw [he]; rfl
    · rw [he]; rfl
    · rw [he]; rfl

theorem uploadPayloads_append (l1 l2 : List Event) :
    uploadPayloads (l1 ++ l2) = uploadPayloads l1 ++ uploadPayloads l2 := by
  simp only [uploadPayloads, List.filterMap_append]

theorem completeInputs_append (l1 l2 : List Event) :
    completeInputs (l1 ++ l2) = completeInputs l1 ++ completeInputs l2 := by
  simp only [completeInputs, List.filterMap_append]

theorem completeInputs_roundEvents (bucket key uploadId : String) :
    ∀ (rs : List Round) (n : Nat),
      completeInputs (roundEvents bucket key uploadId n rs) = [] := by
  intro rs
  induction rs with
  | nil => intro n; rfl
  | cons r rs ih =>
    intro n
    have h : completeInputs (roundEvents bucket key uploadId n (r :: rs))
        = completeInputs (roundEvents bucket key uploadId (n + 1) rs) := rfl
    rw [h, ih]

/-- What is observed on the trace of a run that returns nil. -/
theorem success_trace_observers (bucket key : String) (ir : InitResp) (rounds : List Round)
    (size : Nat) (rerr : Option GoError) (u : Unit) (a d : Option GoError) (tr : List Event)
    (htr : tr = Event.init bucket key (Except.ok ir) ::
      (roundEvents bucket key ir.UploadId 1 rounds ++
        [Event.read size rerr,
         Event.complete bucket key ir.UploadId ⟨roundParts 1 rounds⟩ (Except.ok u),
         Event.abort bucket key a, Event.abort bucket key d])) :
    uploadPayloads tr = rounds.map Round.data ∧
      uploadNumbers tr = List.range' 1 rounds.length ∧
      ackedETags tr = rounds.map Round.etag ∧
      completeInputs tr = [roundParts 1 rounds] := by
  subst htr
  have e1 : ∀ t, uploadPayloads (Event.init bucket key (Except.ok ir) :: t)
      = uploadPayloads t := fun _ => rfl
  have e2 : ∀ t, uploadNumbers (Event.init bucket key (Except.ok ir) :: t)
      = uploadNumbers t := fun _ => rfl
  have e3 : ∀ t, ackedETags (Event.init bucket key (Except.ok ir) :: t)
      = ackedETags t := fun _ => rfl
  have e4 : ∀ t, completeInputs (Event.init bucket key (Except.ok ir) :: t)
      = completeInputs t := fun _ => rfl
  refine ⟨?_, ?_, ?_, ?_⟩
  · rw [e1, uploadPayloads_append, uploadPayloads_roundEvents]
    exact List.append_nil _
  · rw [e2, uploadNumbers_append, uploadNumbers_roundEvents]
    exact List.append_nil _
  · rw [e3, ackedETags_append, ackedETags_roundEvents]
    exact List.append_nil _
  · rw [e4, completeInputs_append, completeInputs_roundEvents]
    rfl

/-- The calls of a trace that is split in two are those of its first part, then those of its
second part from the states the first part leaves. -/
theorem Issued_split {σ β : Type} (f : File σ) (c : Client β) (l2 : List Event)
    (s1 : σ) (b1 : β) :
    ∀ (l1 : List Event) (s : σ) (b : β), Issued f c (l1 ++ l2) s b s1 b1 →
      ∃ s2 b2, Issued f c l1 s b s2 b2 ∧ Issued f c l2 s2 b2 s1 b1 := by
  intro l1
  induction l1 with
  | nil =>
    intro s b h
    exact ⟨s, b, ⟨rfl, rfl⟩, h⟩
  | cons e l ih =>
    intro s b h
    cases e with
    | read size err =>
      simp only [List.cons_append, Issued] at h
      obtain ⟨h1, h2, h3⟩ := h
      obtain ⟨s2, b2, h4, h5⟩ := ih _ _ h3
      exact ⟨s2, b2, ⟨h1, h2, h4⟩, h5⟩
    | init bucket key resp =>
      simp only [List.cons_append, Issued] at h
      obtain ⟨h1, h3⟩ := h
      obtain ⟨s2, b2, h4, h5⟩ := ih _ _ h3
      exact ⟨s2, b2, ⟨h1, h4⟩, h5⟩
    | uploadPart bucket key partNum uploadId data length resp =>
      simp only [List.cons_append, Issued] at h
      obtain ⟨h1, h3⟩ := h
      obtain ⟨s2, b2, h4, h5⟩ := ih _ _ h3
      exact ⟨s2, b2, ⟨h1, h4⟩, h5⟩
    | complete bucket key uploadId input resp =>
      simp only [List.cons_append, Issued] at h
      obtain ⟨h1, h3⟩ := h
      obtain ⟨s2, b2, h4, h5⟩ := ih _ _ h3
      exact ⟨s2, b2, ⟨h1, h4⟩, h5⟩
    | abort bucket key resp =>
      simp only [List.cons_append, Issued] at h
      obtain ⟨h1, h3⟩ := h
      obtain ⟨s2, b2, h4, h5⟩ := ih _ _ h3
      exact ⟨s2, b2, ⟨h1, h4⟩, h5⟩

/-! ## The claims -/

/-- C1: when a run of `Backup` reaches the `CompleteMultipartUpload` call, the manifest passed
to it is `[(1, e_1), ..., (n, e_n)]`, where `e_1 .. e_n` are the ETags returned by the
`UploadPart` calls made before it, in call order; those calls carried the sequence numbers
`1 .. n` in that order, so each of them was acknowledged and appears once. The trace is the
sequence of calls applied to the file and the client, and the manifest is the argument on which
the client's `CompleteMultipartUpload` is applied, in the backend state left by the calls
before it. -/
theorem manifest_lists_acknowledged_parts {σ β : Type} (f : File σ) (c : Client β)
    (fuel : Nat) (backup : BackupSpec) (volFile : σ) (b : β)
    (pre post : List Event) (bucket key uploadId : String) (input : CompleteMultipartUpload)
    (resp : Except GoError Unit)
    (h : (Backup f c fuel backup volFile b).trace
      = pre ++ Event.complete bucket key uploadId input resp :: post) :
    Issued f c (Backup f c fuel backup volFile b).trace volFile b
        (Backup f c fuel backup volFile b).file (Backup f c fuel backup volFile b).backend ∧
      (∃ s1 b1, Issued f c pre volFile b s1 b1 ∧
        (c.CompleteMultipartUpload b1 bucket key uploadId input).1 = resp) ∧
      input.Part
        = List.zipWith Part.mk (List.range' 1 (ackedETags pre).length) (ackedETags pre) ∧
      uploadNumbers pre = List.range' 1 (ackedETags pre).length := by
  refine ⟨Backup_issued f c fuel backup volFile b, ?_, ?_⟩
  · have hiss := Backup_issued f c fuel backup volFile b
    rw [h] at hiss
    obtain ⟨s1, b1, h1, h2⟩ := Issued_split f c _ _ _ pre volFile b hiss
    simp only [Issued] at h2
    exact ⟨s1, b1, h1, h2.1⟩
  obtain ⟨st, tr, hs, htr⟩ : ∃ st tr, BackupShape (backup.metadata "bucket") backup.Id st tr ∧
      tr = pre ++ Event.complete bucket key uploadId input resp :: post :=
    ⟨_, _, Backup_shape f c fuel backup volFile b, h⟩
  have hm : Event.complete bucket key uploadId input resp ∈ tr := by rw [htr]; simp
  cases hs with
  | initFailed err => simp at hm
  | running ir rounds hpos =>
    simp only [List.mem_cons, reduceCtorEq, false_or] at hm
    exact absurd (roundEvents_not_complete hpos _ hm) (by simp [Event.isComplete])
  | readFailed ir rounds hpos size err hne a =>
    simp only [List.mem_cons, List.mem_append, reduceCtorEq, false_or, List.mem_singleton,
      or_false, List.not_mem_nil] at hm
    exact absurd (roundEvents_not_complete hpos _ hm) (by simp [Event.isComplete])
  | uploadFailed ir rounds hpos data hd err a =>
    simp only [List.mem_cons, List.mem_append, reduceCtorEq, false_or, List.mem_singleton,
      or_false, List.not_mem_nil] at hm
    exact absurd (roundEvents_not_complete hpos _ hm) (by simp [Event.isComplete])
  | completeFailed ir rounds hpos size rerr hb err a =>
    obtain ⟨hpre, hx, -⟩ := append_cons_unique Event.isComplete
      (Event.complete (backup.metadata "bucket") backup.Id ir.UploadId ⟨roundParts 1 rounds⟩
        (Except.error err))
      (Event.complete bucket key uploadId input resp)
      [Event.abort (backup.metadata "bucket") backup.Id a] post
      (by simp [Event.isComplete]) rfl
      (Event.init (backup.metadata "bucket") backup.Id (Except.ok ir) ::
        (roundEvents (backup.metadata "bucket") backup.Id ir.UploadId 1 rounds ++
          [Event.read size rerr])) pre
      (by
        intro y hy
        simp only [List.mem_cons, List.mem_append, List.mem_singleton, List.not_mem_nil,
          or_false] at hy
        rcases hy with hy | hy | hy
        · subst hy; rfl
        · exact roundEvents_not_complete hpos _ hy
        · subst hy; rfl)
      (by simpa using htr)
    simp only [Event.complete.injEq] at hx
    obtain ⟨-, -, -, hin, -⟩ := hx
    subst hin
    subst hpre
    have e1 : ackedETags (Event.init (backup.metadata "bucket") backup.Id (Except.ok ir) ::
        (roundEvents (backup.metadata "bucket") backup.Id ir.UploadId 1 rounds ++
          [Event.read size rerr])) = rounds.map Round.etag := by
      have := ackedETags_roundEvents (backup.metadata "bucket") backup.Id ir.UploadId rounds 1
      simp only [ackedETags] at this
      simp [ackedETags, this]
    have e2 : uploadNumbers (Event.init (backup.metadata "bucket") backup.Id (Except.ok ir) ::
        (roundEvents (backup.metadata "bucket") backup.Id ir.UploadId 1 rounds ++
          [Event.read size rerr])) = List.range' 1 rounds.length := by
      have := uploadNumbers_roundEvents (backup.metadata "bucket") backup.Id ir.UploadId rounds 1
      simp only [uploadNumbers] at this
      simp [uploadNumbers, this]
    rw [e1, e2]
    simp [roundParts_eq]
  | success ir rounds hpos size rerr hb u a d =>
    obtain ⟨hpre, hx, -⟩ := append_cons_unique Event.isComplete
      (Event.complete (backup.metadata "bucket") backup.Id ir.UploadId ⟨roundParts 1 rounds⟩
        (Except.ok u))
      (Event.complete bucket key uploadId input resp)
      [Event.abort (backup.metadata "bucket") backup.Id a,
        Event.abort (backup.metadata "bucket") backup.Id d] post
      (by simp [Event.isComplete]) rfl
      (Event.init (backup.metadata "bucket") backup.Id (Except.ok ir) ::
        (roundEvents (backup.metadata "bucket") backup.Id ir.UploadId 1 rounds ++
          [Event.read size rerr])) pre
      (by
        intro y hy
        simp only [List.mem_cons, List.mem_append, List.mem_singleton, List.not_mem_nil,
          or_false] at hy
        rcases hy with hy | hy | hy
        · subst hy; rfl
        · exact roundEvents_not_complete hpos _ hy
        · subst hy; rfl)
      (by simpa using htr)
    simp only [Event.complete.injEq] at hx
    obtain ⟨-, -, -, hin, -⟩ := hx
    subst hin
    subst hpre
    have e1 : ackedETags (Event.init (backup.metadata "bucket") backup.Id (Except.ok ir) ::
        (roundEvents (backup.metadata "bucket") backup.Id ir.UploadId 1 rounds ++
          [Event.read size rerr])) = rounds.map Round.etag := by
      have := ackedETags_roundEvents (backup.metadata "bucket") backup.Id ir.UploadId rounds 1
      simp only [ackedETags] at this
      simp [ackedETags, this]
    have e2 : uploadNumbers (Event.init (backup.metadata "bucket") backup.Id (Except.ok ir) ::
        (roundEvents (backup.metadata "bucket") backup.Id ir.UploadId 1 rounds ++
          [Event.read size rerr])) = List.range' 1 rounds.length := by
      have := uploadNumbers_roundEvents (backup.metadata "bucket") backup.Id ir.UploadId rounds 1
      simp only [uploadNumbers] at this
      simp [uploadNumbers, this]
    rw [e1, e2]
    simp [roundParts_eq]

/-- C1 at a concrete run: two pieces are read and acknowledged with ETags `e1` and `e2`, and
the manifest passed to completion is `[(1, e1), (2, e2)]`. -/
theorem manifest_lists_acknowledged_parts_witness :
    (Backup scriptFile scriptClient 5 demoSpec demoReads demoScript).trace
        = [Event.init "bkt" "bk" (Except.ok ⟨"u1"⟩),
            Event.read 2 none,
            Event.uploadPart "bkt" "bk" 1 "u1" [1, 2] 2 (Except.ok ⟨"e1"⟩),
            Event.read 1 none,
            Event.uploadPart "bkt" "bk" 2 "u1" [3] 1 (Except.ok ⟨"e2"⟩),
            Event.read 0 (some GoError.EOF)]
          ++ Event.complete "bkt" "bk" "u1" ⟨[⟨1, "e1"⟩, ⟨2, "e2"⟩]⟩ (Except.ok ()) ::
            [Event.abort "bkt" "bk" none, Event.abort "bkt" "bk" none] ∧
      Issued scriptFile scriptClient
        (Backup scriptFile scriptClient 5 demoSpec demoReads demoScript).trace
        demoReads demoScript
        (Backup scriptFile scriptClient 5 demoSpec demoReads demoScript).file
        (Backup scriptFile scriptClient 5 demoSpec demoReads demoScript).backend ∧
      (⟨[⟨1, "e1"⟩, ⟨2, "e2"⟩]⟩ : CompleteMultipartUpload).Part
        = List.zipWith Part.mk (List.range' 1 2) ["e1", "e2"] :=
  ⟨rfl,
    (manifest_lists_acknowledged_parts scriptFile scriptClient 5 demoSpec demoReads demoScript
      [Event.init "bkt" "bk" (Except.ok ⟨"u1"⟩),
        Event.read 2 none,
        Event.uploadPart "bkt" "bk" 1 "u1" [1, 2] 2 (Except.ok ⟨"e1"⟩),
        Event.read 1 none,
        Event.uploadPart "bkt" "bk" 2 "u1" [3] 1 (Except.ok ⟨"e2"⟩),
        Event.read 0 (some GoError.EOF)]
      [Event.abort "bkt" "bk" none, Event.abort "bkt" "bk" none]
      "bkt" "bk" "u1" ⟨[⟨1, "e1"⟩, ⟨2, "e2"⟩]⟩ (Except.ok ()) rfl).1,
    (manifest_lists_acknowledged_parts scriptFile scriptClient 5 demoSpec demoReads demoScript
      [Event.init "bkt" "bk" (Except.ok ⟨"u1"⟩),
        Event.read 2 none,
        Event.uploadPart "bkt" "bk" 1 "u1" [1, 2] 2 (Except.ok ⟨"e1"⟩),
        Event.read 1 none,
        Event.uploadPart "bkt" "bk" 2 "u1" [3] 1 (Except.ok ⟨"e2"⟩),
        Event.read 0 (some GoError.EOF)]
      [Event.abort "bkt" "bk" none, Event.abort "bkt" "bk" none]
      "bkt" "bk" "u1" ⟨[⟨1, "e1"⟩, ⟨2, "e2"⟩]⟩ (Except.ok ()) rfl).2.2.1⟩

/-- C3, as stated, fails: on a run in which every step succeeds, two
`AbortMultipartUpload` calls are made, not one. -/
theorem success_run_single_abort_counterexample :
    (Backup scriptFile scriptClient 5 demoSpec demoReads demoScript).ret = Status.returned none ∧
      (∀ e ∈ (Backup scriptFile scriptClient 5 demoSpec demoReads demoScript).trace,
        e.failure = none) ∧
      ¬ ((Backup scriptFile scriptClient 5 demoSpec demoReads demoScript).trace.filter
        Event.isAbort).length = 1 := by
  refine ⟨rfl, ?_, by decide⟩
  rw [show (Backup scriptFile scriptClient 5 demoSpec demoReads demoScript).trace
      = [Event.init "bkt" "bk" (Except.ok ⟨"u1"⟩),
          Event.read 2 none,
          Event.uploadPart "bkt" "bk" 1 "u1" [1, 2] 2 (Except.ok ⟨"e1"⟩),
          Event.read 1 none,
          Event.uploadPart "bkt" "bk" 2 "u1" [3] 1 (Except.ok ⟨"e2"⟩),
          Event.read 0 (some GoError.EOF),
          Event.complete "bkt" "bk" "u1" ⟨[⟨1, "e1"⟩, ⟨2, "e2"⟩]⟩ (Except.ok ()),
          Event.abort "bkt" "bk" none, Event.abort "bkt" "bk" none] from rfl]
  simp [Event.failure]

/-- C3, amended: on a run that reaches `CompleteMultipartUpload` and in which no step fails,
`Backup` returns nil and exactly two `AbortMultipartUpload` calls are made, the one written
after the completion call and the deferred one; both come after the completion call, and
they are the last two calls. The trace is the sequence of calls applied to the file and the
client: both aborts are calls of the client's `AbortMultipartUpload`, with the answers it
gives, and the final backend state is the one the second leaves. -/
theorem success_run_aborts_twice {σ β : Type} (f : File σ) (c : Client β)
    (fuel : Nat) (backup : BackupSpec) (volFile : σ) (b : β)
    (bucket key uploadId : String) (input : CompleteMultipartUpload)
    (resp : Except GoError Unit)
    (hc : Event.complete bucket key uploadId input resp ∈ (Backup f c fuel backup volFile b).trace)
    (hok : ∀ e ∈ (Backup f c fuel backup volFile b).trace, e.failure = none) :
    Issued f c (Backup f c fuel backup volFile b).trace volFile b
        (Backup f c fuel backup volFile b).file (Backup f c fuel backup volFile b).backend ∧
      (Backup f c fuel backup volFile b).ret = Status.returned none ∧
      ((Backup f c fuel backup volFile b).trace.filter Event.isAbort).length = 2 ∧
      ∃ pre a d,
        (Backup f c fuel backup volFile b).trace
          = pre ++ [Event.complete bucket key uploadId input resp,
              Event.abort (backup.metadata "bucket") backup.Id a,
              Event.abort (backup.metadata "bucket") backup.Id d] ∧
        ∀ x ∈ pre, x.isAbort = false := by
  refine ⟨Backup_issued f c fuel backup volFile b, ?_⟩
  have hs := Backup_shape f c fuel backup volFile b
  generalize (Backup f c fuel backup volFile b).ret = st at hs ⊢
  generalize (Backup f c fuel backup volFile b).trace = tr at hs hc hok ⊢
  cases hs with
  | initFailed err => simp at hc
  | running ir rounds hpos =>
    simp only [List.mem_cons, reduceCtorEq, false_or] at hc
    exact absurd (roundEvents_not_complete hpos _ hc) (by simp [Event.isComplete])
  | readFailed ir rounds hpos size err hne a =>
    simp only [List.mem_cons, List.mem_append, reduceCtorEq, false_or, List.mem_singleton,
      or_false, List.not_mem_nil] at hc
    exact absurd (roundEvents_not_complete hpos _ hc) (by simp [Event.isComplete])
  | uploadFailed ir rounds hpos data hd err a =>
    simp only [List.mem_cons, List.mem_append, reduceCtorEq, false_or, List.mem_singleton,
      or_false, List.not_mem_nil] at hc
    exact absurd (roundEvents_not_complete hpos _ hc) (by simp [Event.isComplete])
  | completeFailed ir rounds hpos size rerr hb err a =>
    have := hok (Event.complete (backup.metadata "bucket") backup.Id ir.UploadId
      ⟨roundParts 1 rounds⟩ (Except.error err)) (by simp)
    simp [Event.failure] at this
  | success ir rounds hpos size rerr hb u a d =>
    simp only [List.mem_cons, List.mem_append, reduceCtorEq, false_or, List.mem_singleton,
      or_false, List.not_mem_nil] at hc
    rcases hc with hc | hc
    · exact absurd (roundEvents_not_complete hpos _ hc) (by simp [Event.isComplete])
    · refine ⟨rfl, ?_, ?_⟩
      · simp [List.filter_cons, List.filter_append, filter_isAbort_roundEvents hpos,
          Event.isAbort]
      · refine ⟨Event.init (backup.metadata "bucket") backup.Id (Except.ok ir) ::
          (roundEvents (backup.metadata "bucket") backup.Id ir.UploadId 1 rounds ++
            [Event.read size rerr]), a, d, ?_, ?_⟩
        · rw [hc]; simp
        · intro x hx
          simp only [List.mem_cons, List.mem_append, List.mem_singleton, List.not_mem_nil,
            or_false] at hx
          rcases hx with hx | hx | hx
          · subst hx; rfl
          · exact (roundEvents_props hpos x hx).1
          · subst hx; rfl

/-- C3, amended, at a concrete run: two pieces are uploaded, completion succeeds, and two
aborts follow; both fail, and `Backup` still returns nil. -/
theorem success_run_aborts_twice_witness :
    Issued scriptFile scriptClient
        (Backup scriptFile scriptClient 5 demoSpec demoReads abortFailScript).trace
        demoReads abortFailScript
        (Backup scriptFile scriptClient 5 demoSpec demoReads abortFailScript).file
        (Backup scriptFile scriptClient 5 demoSpec demoReads abortFailScript).backend ∧
      (Backup scriptFile scriptClient 5 demoSpec demoReads abortFailScript).ret
        = Status.returned none ∧
      ((Backup scriptFile scriptClient 5 demoSpec demoReads abortFailScript).trace.filter
        Event.isAbort).length = 2 :=
  have htr : (Backup scriptFile scriptClient 5 demoSpec demoReads abortFailScript).trace
      = [Event.init "bkt" "bk" (Except.ok ⟨"u1"⟩),
          Event.read 2 none,
          Event.uploadPart "bkt" "bk" 1 "u1" [1, 2] 2 (Except.ok ⟨"e1"⟩),
          Event.read 1 none,
          Event.uploadPart "bkt" "bk" 2 "u1" [3] 1 (Except.ok ⟨"e2"⟩),
          Event.read 0 (some GoError.EOF),
          Event.complete "bkt" "bk" "u1" ⟨[⟨1, "e1"⟩, ⟨2, "e2"⟩]⟩ (Except.ok ()),
          Event.abort "bkt" "bk" (some (GoError.other "abort")), Event.abort "bkt" "bk" (some (GoError.other "abort"))] := rfl
  have h := success_run_aborts_twice scriptFile scriptClient 5 demoSpec demoReads
    abortFailScript
    "bkt" "bk" "u1" ⟨[⟨1, "e1"⟩, ⟨2, "e2"⟩]⟩ (Except.ok ())
    (by rw [htr]; simp) (by rw [htr]; simp [Event.failure])
  ⟨h.1, h.2.1, h.2.2.1⟩

/-- C5: the value returned by `Backup` does not depend on `AbortMultipartUpload`: with the
abort replaced by any other one (other answers, other effect on the backend), `Backup`
returns the same value, makes the same calls other than aborts and leaves the file in the
same state; and an error returned is the error of a failed step, never an abort's. -/
theorem result_independent_of_abort {σ β : Type} (f : File σ) (c : Client β)
    (a : β → String → String → Option GoError × β)
    (fuel : Nat) (backup : BackupSpec) (volFile : σ) (b : β) :
    (Backup f { c with AbortMultipartUpload := a } fuel backup volFile b).ret
        = (Backup f c fuel backup volFile b).ret ∧
      (Backup f { c with AbortMultipartUpload := a } fuel backup volFile b).trace.filter
          (fun e => !e.isAbort)
        = (Backup f c fuel backup volFile b).trace.filter (fun e => !e.isAbort) ∧
      (Backup f { c with AbortMultipartUpload := a } fuel backup volFile b).file
        = (Backup f c fuel backup volFile b).file ∧
      ∀ err, (Backup f c fuel backup volFile b).ret = Status.returned (some err) →
        ∃ e ∈ (Backup f c fuel backup volFile b).trace,
          e.isAbort = false ∧ e.failure = some err := by
  refine ⟨?_, ?_, ?_, ?_⟩
  · rcases hi : c.InitMultiPartUpload b (backup.metadata "bucket") backup.Id with ⟨resp, b1⟩
    cases resp with
    | error err => simp only [Backup, hi]
    | ok ir =>
      simp only [Backup, hi, uploadLoop_abort_irrelevant]
      cases hx : (uploadLoop f c (backup.metadata "bucket") backup.Id ir.UploadId fuel 1 []
          volFile b1).exit with
      | running => rfl
      | returned err => rfl
      | broke parts =>
        simp only []
        rcases hc : c.CompleteMultipartUpload
            (uploadLoop f c (backup.metadata "bucket") backup.Id ir.UploadId fuel 1 []
              volFile b1).backend
            (backup.metadata "bucket") backup.Id ir.UploadId ⟨parts⟩ with ⟨cr, b2⟩
        cases cr <;> rfl
  · rcases hi : c.InitMultiPartUpload b (backup.metadata "bucket") backup.Id with ⟨resp, b1⟩
    cases resp with
    | error err => simp only [Backup, hi]
    | ok ir =>
      simp only [Backup, hi, uploadLoop_abort_irrelevant]
      cases hx : (uploadLoop f c (backup.metadata "bucket") backup.Id ir.UploadId fuel 1 []
          volFile b1).exit with
      | running => rfl
      | returned err =>
        simp [List.filter_cons, List.filter_append, Event.isAbort]
      | broke parts =>
        simp only []
        rcases hc : c.CompleteMultipartUpload
            (uploadLoop f c (backup.metadata "bucket") backup.Id ir.UploadId fuel 1 []
              volFile b1).backend
            (backup.metadata "bucket") backup.Id ir.UploadId ⟨parts⟩ with ⟨cr, b2⟩
        cases cr <;> simp [List.filter_cons, List.filter_append, Event.isAbort]
  · rcases hi : c.InitMultiPartUpload b (backup.metadata "bucket") backup.Id with ⟨resp, b1⟩
    cases resp with
    | error err => simp only [Backup, hi]
    | ok ir =>
      simp only [Backup, hi, uploadLoop_abort_irrelevant]
      cases hx : (uploadLoop f c (backup.metadata "bucket") backup.Id ir.UploadId fuel 1 []
          volFile b1).exit with
      | running => rfl
      | returned err => rfl
      | broke parts =>
        simp only []
        rcases hc : c.CompleteMultipartUpload
            (uploadLoop f c (backup.metadata "bucket") backup.Id ir.UploadId fuel 1 []
              volFile b1).backend
            (backup.metadata "bucket") backup.Id ir.UploadId ⟨parts⟩ with ⟨cr, b2⟩
        cases cr <;> rfl
  · have hs := Backup_shape f c fuel backup volFile b
    generalize (Backup f c fuel backup volFile b).ret = st at hs ⊢
    generalize (Backup f c fuel backup volFile b).trace = tr at hs ⊢
    intro err h
    subst h
    cases hs with
    | initFailed err0 => exact ⟨_, List.mem_singleton.mpr rfl, rfl, rfl⟩
    | readFailed ir rounds hpos size err0 hne a =>
      refine ⟨Event.read size (some err), by simp, rfl, ?_⟩
      cases err with
      | EOF => exact absurd rfl hne
      | other m => rfl
    | uploadFailed ir rounds hpos data hd err0 a =>
      exact ⟨Event.uploadPart (backup.metadata "bucket") backup.Id (1 + rounds.length)
        ir.UploadId data data.length (Except.error err), by simp, rfl, rfl⟩
    | completeFailed ir rounds hpos size rerr hb err0 a =>
      exact ⟨Event.complete (backup.metadata "bucket") backup.Id ir.UploadId
        ⟨roundParts 1 rounds⟩ (Except.error err), by simp, rfl, rfl⟩

/-- C5 at a concrete run: the second upload fails and the abort fails too; with an abort that
succeeds instead, `Backup` returns the same error, the one of the upload. -/
theorem result_independent_of_abort_witness :
    (Backup scriptFile { scriptClient with AbortMultipartUpload := fun b _ _ => (none, b) }
        5 demoSpec demoReads failScript).ret
        = (Backup scriptFile scriptClient 5 demoSpec demoReads failScript).ret ∧
      ∃ e ∈ (Backup scriptFile scriptClient 5 demoSpec demoReads failScript).trace,
        e.isAbort = false ∧ e.failure = some (GoError.other "transport") :=
  ⟨(result_independent_of_abort scriptFile scriptClient (fun b _ _ => (none, b))
      5 demoSpec demoReads failScript).1,
    (result_independent_of_abort scriptFile scriptClient (fun b _ _ => (none, b))
      5 demoSpec demoReads failScript).2.2.2 (GoError.other "transport") rfl⟩

/-- C6: when `InitMultiPartUpload` fails, `Backup` returns that error, the init call is the
only call made (no upload, completion or abort call, no read), and the file is left as it
was. -/
theorem init_failure_makes_no_other_call {σ β : Type} (f : File σ) (c : Client β)
    (fuel : Nat) (backup : BackupSpec) (volFile : σ) (b b1 : β) (err : GoError)
    (h : c.InitMultiPartUpload b (backup.metadata "bucket") backup.Id = (Except.error err, b1)) :
    Backup f c fuel backup volFile b
      = ⟨Status.returned (some err),
          [Event.init (backup.metadata "bucket") backup.Id (Except.error err)], volFile, b1⟩ := by
  simp only [Backup, h]

/-- C6 at a concrete run: init fails on a missing bucket. -/
theorem init_failure_makes_no_other_call_witness :
    scriptClient.InitMultiPartUpload initFailScript (demoSpec.metadata "bucket") demoSpec.Id
        = (Except.error (GoError.other "no bucket"), initFailScript) ∧
      Backup scriptFile scriptClient 5 demoSpec demoReads initFailScript
        = ⟨Status.returned (some (GoError.other "no bucket")),
            [Event.init (demoSpec.metadata "bucket") demoSpec.Id
              (Except.error (GoError.other "no bucket"))],
            demoReads, initFailScript⟩ :=
  ⟨rfl, init_failure_makes_no_other_call scriptFile scriptClient 5 demoSpec demoReads
    initFailScript initFailScript (GoError.other "no bucket") rfl⟩

/-- C7: when the `UploadPart` call for sequence number `k` fails, then `k ≥ 1`, the backend
calls made are one init, the uploads for `1, 2, ..., k` in that order, each once, and then
the abort (no completion call, no upload beyond `k`); the failed upload is the last call
before the abort, no earlier step failed, and `Backup` returns the error of that upload. The
trace is the sequence of calls applied to the file and the client, so these are the calls
the client receives, with the answers it gives. -/
theorem first_failed_upload_stops_run {σ β : Type} (f : File σ) (c : Client β)
    (fuel : Nat) (backup : BackupSpec) (volFile : σ) (b : β)
    (bucket key uploadId : String) (k : Nat) (data : List UInt8) (len : Nat) (err : GoError)
    (h : Event.uploadPart bucket key k uploadId data len (Except.error err)
      ∈ (Backup f c fuel backup volFile b).trace) :
    Issued f c (Backup f c fuel backup volFile b).trace volFile b
        (Backup f c fuel backup volFile b).file (Backup f c fuel backup volFile b).backend ∧
      1 ≤ k ∧
      (Backup f c fuel backup volFile b).trace.filterMap Event.call
        = Call.init :: ((List.range' 1 k).map Call.upload ++ [Call.abort]) ∧
      (Backup f c fuel backup volFile b).ret = Status.returned (some err) ∧
      ∃ ir pre a,
        (Backup f c fuel backup volFile b).trace
          = Event.init (backup.metadata "bucket") backup.Id (Except.ok ir) ::
              (pre ++ [Event.uploadPart bucket key k uploadId data len (Except.error err),
                Event.abort (backup.metadata "bucket") backup.Id a]) ∧
        ∀ x ∈ pre, x.isAbort = false ∧ x.failure = none := by
  refine ⟨Backup_issued f c fuel backup volFile b, ?_⟩
  obtain ⟨hret, hsh⟩ := shape_failure (Backup_shape f c fuel backup volFile b) _ err h rfl
  rcases hsh with ⟨-, hi⟩ | ⟨ir, pre, a, htr, -, hpre⟩
  · exact absurd hi (by simp [Event.isInit])
  · refine ⟨?_, ?_, hret, ir, pre, a, htr, hpre⟩
    all_goals
      have hs := Backup_shape f c fuel backup volFile b
      generalize (Backup f c fuel backup volFile b).ret = st at hs hret
      generalize (Backup f c fuel backup volFile b).trace = tr at hs h htr ⊢
      cases hs with
      | initFailed err0 => simp at h
      | running ir0 rounds hpos =>
        simp only [List.mem_cons, reduceCtorEq, false_or] at h
        have := (roundEvents_props hpos _ h).2.1
        simp [Event.failure] at this
      | readFailed ir0 rounds hpos size err0 hne a0 =>
        simp only [List.mem_cons, List.mem_append, reduceCtorEq, false_or, List.mem_singleton,
          or_false, List.not_mem_nil] at h
        have := (roundEvents_props hpos _ h).2.1
        simp [Event.failure] at this
      | completeFailed ir0 rounds hpos size rerr hb err0 a0 =>
        simp only [List.mem_cons, List.mem_append, reduceCtorEq, false_or, List.mem_singleton,
          or_false, List.not_mem_nil] at h
        have := (roundEvents_props hpos _ h).2.1
        simp [Event.failure] at this
      | success ir0 rounds hpos size rerr hb u a0 d0 =>
        simp only [List.mem_cons, List.mem_append, reduceCtorEq, false_or, List.mem_singleton,
          or_false, List.not_mem_nil] at h
        have := (roundEvents_props hpos _ h).2.1
        simp [Event.failure] at this
      | uploadFailed ir0 rounds hpos data0 hd err0 a0 =>
        simp only [List.mem_cons, List.mem_append, reduceCtorEq, false_or, List.mem_singleton,
          or_false, List.not_mem_nil, Event.uploadPart.injEq] at h
        rcases h with h | h
        · have := (roundEvents_props hpos _ h).2.1
          simp [Event.failure] at this
        · obtain ⟨-, -, hk, -⟩ := h
          subst hk
          first
            | omega
            | simp [List.filterMap_append, calls_roundEvents, Event.call, List.range'_concat,
                Nat.add_comm]

/-- C7 at a concrete run: the upload for sequence number 2 fails; the backend calls are init,
upload 1, upload 2, abort, and the upload's error is returned. -/
theorem first_failed_upload_stops_run_witness :
    Event.uploadPart "bkt" "bk" 2 "u1" [3] 1 (Except.error (GoError.other "transport"))
        ∈ (Backup scriptFile scriptClient 5 demoSpec demoReads failScript).trace ∧
      Issued scriptFile scriptClient
        (Backup scriptFile scriptClient 5 demoSpec demoReads failScript).trace
        demoReads failScript
        (Backup scriptFile scriptClient 5 demoSpec demoReads failScript).file
        (Backup scriptFile scriptClient 5 demoSpec demoReads failScript).backend ∧
      (Backup scriptFile scriptClient 5 demoSpec demoReads failScript).trace.filterMap Event.call
        = Call.init :: ((List.range' 1 2).map Call.upload ++ [Call.abort]) ∧
      (Backup scriptFile scriptClient 5 demoSpec demoReads failScript).ret
        = Status.returned (some (GoError.other "transport")) :=
  have hmem : Event.uploadPart "bkt" "bk" 2 "u1" [3] 1 (Except.error (GoError.other "transport"))
      ∈ (Backup scriptFile scriptClient 5 demoSpec demoReads failScript).trace := by
    rw [show (Backup scriptFile scriptClient 5 demoSpec demoReads failScript).trace
      = [Event.init "bkt" "bk" (Except.ok ⟨"u1"⟩),
          Event.read 2 none,
          Event.uploadPart "bkt" "bk" 1 "u1" [1, 2] 2 (Except.ok ⟨"e1"⟩),
          Event.read 1 none,
          Event.uploadPart "bkt" "bk" 2 "u1" [3] 1 (Except.error (GoError.other "transport")),
          Event.abort "bkt" "bk" (some (GoError.other "abort"))] from rfl]
    simp
  have h := first_failed_upload_stops_run scriptFile scriptClient 5 demoSpec demoReads failScript
    "bkt" "bk" "u1" 2 [3] 1 (GoError.other "transport") hmem
  ⟨hmem, h.1, h.2.2.1, h.2.2.2.1⟩

/-- C9: on a source whose first read signals `io.EOF`, after a successful init and with at
least one loop iteration allowed, `Backup` makes no `UploadPart` call, calls
`CompleteMultipartUpload` once, with an empty manifest, reads the file once, and returns the
result of that completion call; only aborts follow the completion call. -/
theorem empty_source_completes_with_empty_manifest {σ β : Type} (f : File σ) (c : Client β)
    (fuel : Nat) (backup : BackupSpec) (volFile : σ) (b b1 : β) (ir : InitResp)
    (hfuel : 0 < fuel)
    (hinit : c.InitMultiPartUpload b (backup.metadata "bucket") backup.Id = (Except.ok ir, b1))
    (heof : (f.Read volFile UploadChunkSize).1.err = some GoError.EOF) :
    (Backup f c fuel backup volFile b).ret
        = Status.returned (errorOf (c.CompleteMultipartUpload b1 (backup.metadata "bucket")
            backup.Id ir.UploadId ⟨[]⟩).1) ∧
      ∃ aborts,
        (Backup f c fuel backup volFile b).trace
          = [Event.init (backup.metadata "bucket") backup.Id (Except.ok ir),
              Event.read (f.Read volFile UploadChunkSize).1.data.length (some GoError.EOF),
              Event.complete (backup.metadata "bucket") backup.Id ir.UploadId ⟨[]⟩
                (c.CompleteMultipartUpload b1 (backup.metadata "bucket") backup.Id
                  ir.UploadId ⟨[]⟩).1] ++ aborts ∧
        ∀ x ∈ aborts, x.isAbort = true := by
  cases fuel with
  | zero => exact absurd hfuel (by decide)
  | succ n =>
    rcases hr : f.Read volFile UploadChunkSize with ⟨r, s1⟩
    rcases r with ⟨data, rerr⟩
    rw [hr] at heof
    simp only at heof
    subst heof
    rcases hc : c.CompleteMultipartUpload b1 (backup.metadata "bucket") backup.Id ir.UploadId
      ⟨[]⟩ with ⟨cr, b2⟩
    cases cr with
    | error err =>
      simp only [Backup, hinit, uploadLoop, hr, hc, errorOf, true_and]
      exact ⟨[Event.abort (backup.metadata "bucket") backup.Id
        (c.AbortMultipartUpload b2 (backup.metadata "bucket") backup.Id).1], by simp,
        by simp [Event.isAbort]⟩
    | ok u =>
      simp only [Backup, hinit, uploadLoop, hr, hc, errorOf, true_and]
      exact ⟨[Event.abort (backup.metadata "bucket") backup.Id
          (c.AbortMultipartUpload b2 (backup.metadata "bucket") backup.Id).1,
        Event.abort (backup.metadata "bucket") backup.Id
          (c.AbortMultipartUpload
            (c.AbortMultipartUpload b2 (backup.metadata "bucket") backup.Id).2
            (backup.metadata "bucket") backup.Id).1], by simp, by simp [Event.isAbort]⟩

/-- C9 at a concrete run: an empty file, on a backend that rejects an empty manifest;
`Backup` returns the completion call's error. -/
theorem empty_source_completes_with_empty_manifest_witness :
    (Backup memFile scriptClient 1 demoSpec [] rejectScript).ret
      = Status.returned (some (GoError.other "empty manifest")) :=
  (empty_source_completes_with_empty_manifest memFile scriptClient 1 demoSpec [] rejectScript
    rejectScript ⟨"u1"⟩ (by decide) rfl rfl).1

/-- C10: every `UploadPart` call carries at least one byte and its length argument is the
byte length of its data; and a read that returns zero bytes and no error is handled like one
that signals `io.EOF`: the call right after it is the `CompleteMultipartUpload` call, with
the manifest of the parts acknowledged so far, only aborts follow (no further read, no
upload), and `Backup` returns the result of that completion call. The trace is the sequence
of calls applied to the file and the client, so the completion call is a call of the
client's `CompleteMultipartUpload` on that manifest, and its result is the client's. -/
theorem zero_byte_read_ends_loop {σ β : Type} (f : File σ) (c : Client β)
    (fuel : Nat) (backup : BackupSpec) (volFile : σ) (b : β) :
    Issued f c (Backup f c fuel backup volFile b).trace volFile b
        (Backup f c fuel backup volFile b).file (Backup f c fuel backup volFile b).backend ∧
      (∀ bucket key k uploadId data len resp,
        Event.uploadPart bucket key k uploadId data len resp
          ∈ (Backup f c fuel backup volFile b).trace →
        0 < data.length ∧ len = data.length) ∧
      (∀ pre post size rerr,
        (Backup f c fuel backup volFile b).trace = pre ++ Event.read size rerr :: post →
        (rerr = some GoError.EOF ∨ (rerr = none ∧ size = 0)) →
        ∃ uploadId resp aborts,
          post = Event.complete (backup.metadata "bucket") backup.Id uploadId
              ⟨List.zipWith Part.mk (List.range' 1 (ackedETags pre).length) (ackedETags pre)⟩
              resp :: aborts ∧
          (∀ x ∈ aborts, x.isAbort = true) ∧
          (Backup f c fuel backup volFile b).ret = Status.returned (errorOf resp)) := by
  refine ⟨Backup_issued f c fuel backup volFile b, ?_⟩
  have hs := Backup_shape f c fuel backup volFile b
  generalize (Backup f c fuel backup volFile b).ret = st at hs ⊢
  generalize (Backup f c fuel backup volFile b).trace = tr at hs ⊢
  constructor
  · intro bucket key k uploadId data len resp h
    have hround : ∀ (rounds : List Round) (u : String) (n : Nat),
        (∀ r ∈ rounds, 0 < r.data.length) →
        Event.uploadPart bucket key k uploadId data len resp
          ∈ roundEvents (backup.metadata "bucket") backup.Id u n rounds →
        0 < data.length ∧ len = data.length := by
      intro rounds u n hpos hm
      rcases roundEvents_mem rounds n _ hm hpos with ⟨_, _, h⟩ | ⟨_, _, _, hd, h⟩
      · simp at h
      · simp only [Event.uploadPart.injEq] at h
        obtain ⟨-, -, -, -, h5, h6, -⟩ := h
        subst h5
        exact ⟨hd, h6⟩
    cases hs with
    | initFailed err => simp at h
    | running ir rounds hpos =>
      simp only [List.mem_cons, reduceCtorEq, false_or] at h
      exact hround rounds _ _ hpos h
    | readFailed ir rounds hpos size err hne a =>
      simp only [List.mem_cons, List.mem_append, reduceCtorEq, false_or, List.mem_singleton,
        or_false, List.not_mem_nil] at h
      exact hround rounds _ _ hpos h
    | uploadFailed ir rounds hpos data0 hd err a =>
      simp only [List.mem_cons, List.mem_append, reduceCtorEq, false_or, List.mem_singleton,
        or_false, List.not_mem_nil, Event.uploadPart.injEq] at h
      rcases h with h | h
      · exact hround rounds _ _ hpos h
      · obtain ⟨-, -, -, -, h5, h6, -⟩ := h
        subst h5
        exact ⟨hd, h6⟩
    | completeFailed ir rounds hpos size rerr hb err a =>
      simp only [List.mem_cons, List.mem_append, reduceCtorEq, false_or, List.mem_singleton,
        or_false, List.not_mem_nil] at h
      exact hround rounds _ _ hpos h
    | success ir rounds hpos size rerr hb u a d =>
      simp only [List.mem_cons, List.mem_append, reduceCtorEq, false_or, List.mem_singleton,
        or_false, List.not_mem_nil] at h
      exact hround rounds _ _ hpos h
  · intro pre post size rerr htr hb
    have hbr := (breakRead_failure hb).2
    have hm : Event.read size rerr ∈ tr := by rw [htr]; simp
    have hno : ∀ l : List Event, (∀ y ∈ l, y.isBreakRead = false) →
        Event.read size rerr ∈ l → False := by
      intro l hl hmem
      have := hl _ hmem
      rw [hbr] at this
      exact absurd this (by decide)
    have hl1 : ∀ (ir : InitResp) (rounds : List Round), (∀ r ∈ rounds, 0 < r.data.length) →
        ∀ y ∈ Event.init (backup.metadata "bucket") backup.Id (Except.ok ir) ::
          roundEvents (backup.metadata "bucket") backup.Id ir.UploadId 1 rounds,
          y.isBreakRead = false := by
      intro ir rounds hpos y hy
      rcases List.mem_cons.mp hy with hy | hy
      · subst hy; rfl
      · exact (roundEvents_props hpos y hy).2.2.2
    have hacked : ∀ (ir : InitResp) (rounds : List Round),
        ackedETags (Event.init (backup.metadata "bucket") backup.Id (Except.ok ir) ::
          roundEvents (backup.metadata "bucket") backup.Id ir.UploadId 1 rounds)
          = rounds.map Round.etag := by
      intro ir rounds
      have := ackedETags_roundEvents (backup.metadata "bucket") backup.Id ir.UploadId rounds 1
      simp only [ackedETags] at this
      simp [ackedETags, this]
    cases hs with
    | initFailed err => simp at hm
    | running ir rounds hpos => exact (hno _ (hl1 ir rounds hpos) hm).elim
    | readFailed ir rounds hpos size0 err hne a =>
      refine (hno _ ?_ hm).elim
      intro y hy
      simp only [List.mem_cons, List.mem_append, List.not_mem_nil, or_false] at hy
      rcases hy with hy | hy | hy | hy
      · subst hy; rfl
      · exact (roundEvents_props hpos y hy).2.2.2
      · subst hy
        cases err with
        | EOF => exact absurd rfl hne
        | other m => cases size0 <;> rfl
      · subst hy; rfl
    | uploadFailed ir rounds hpos data hd err a =>
      refine (hno _ ?_ hm).elim
      intro y hy
      simp only [List.mem_cons, List.mem_append, List.not_mem_nil, or_false] at hy
      rcases hy with hy | hy | hy | hy | hy
      · subst hy; rfl
      · exact (roundEvents_props hpos y hy).2.2.2
      · subst hy
        cases hl : data.length with
        | zero => rw [hl] at hd; exact absurd hd (by decide)
        | succ m => rfl
      · subst hy; rfl
      · subst hy; rfl
    | completeFailed ir rounds hpos size0 rerr0 hb0 err a =>
      obtain ⟨hpre, -, hpost⟩ := append_cons_unique Event.isBreakRead
        (Event.read size0 rerr0) (Event.read size rerr)
        [Event.complete (backup.metadata "bucket") backup.Id ir.UploadId
            ⟨roundParts 1 rounds⟩ (Except.error err),
          Event.abort (backup.metadata "bucket") backup.Id a] post
        (by simp [Event.isBreakRead]) hbr
        (Event.init (backup.metadata "bucket") backup.Id (Except.ok ir) ::
          roundEvents (backup.metadata "bucket") backup.Id ir.UploadId 1 rounds) pre
        (hl1 ir rounds hpos) (by simpa using htr)
      subst hpre
      subst hpost
      refine ⟨ir.UploadId, Except.error err,
        [Event.abort (backup.metadata "bucket") backup.Id a], ?_, by simp [Event.isAbort], rfl⟩
      rw [hacked]
      simp [roundParts_eq]
    | success ir rounds hpos size0 rerr0 hb0 u a d =>
      obtain ⟨hpre, -, hpost⟩ := append_cons_unique Event.isBreakRead
        (Event.read size0 rerr0) (Event.read size rerr)
        [Event.complete (backup.metadata "bucket") backup.Id ir.UploadId
            ⟨roundParts 1 rounds⟩ (Except.ok u),
          Event.abort (backup.metadata "bucket") backup.Id a,
          Event.abort (backup.metadata "bucket") backup.Id d] post
        (by simp [Event.isBreakRead]) hbr
        (Event.init (backup.metadata "bucket") backup.Id (Except.ok ir) ::
          roundEvents (backup.metadata "bucket") backup.Id ir.UploadId 1 rounds) pre
        (hl1 ir rounds hpos) (by simpa using htr)
      subst hpre
      subst hpost
      refine ⟨ir.UploadId, Except.ok u,
        [Event.abort (backup.metadata "bucket") backup.Id a,
          Event.abort (backup.metadata "bucket") backup.Id d], ?_,
        by simp [Event.isAbort], rfl⟩
      rw [hacked]
      simp [roundParts_eq]

/-- C10 at a concrete run: the second read returns zero bytes and no error although data is
left; the next call is the completion call with the one part acknowledged so far. -/
theorem zero_byte_read_ends_loop_witness :
    (Backup scriptFile scriptClient 5 demoSpec stallReads demoScript).trace
        = [Event.init "bkt" "bk" (Except.ok ⟨"u1"⟩),
            Event.read 2 none,
            Event.uploadPart "bkt" "bk" 1 "u1" [1, 2] 2 (Except.ok ⟨"e1"⟩)]
          ++ Event.read 0 none ::
            [Event.complete "bkt" "bk" "u1" ⟨[⟨1, "e1"⟩]⟩ (Except.ok ()),
              Event.abort "bkt" "bk" none, Event.abort "bkt" "bk" none] ∧
      Issued scriptFile scriptClient
        (Backup scriptFile scriptClient 5 demoSpec stallReads demoScript).trace
        stallReads demoScript
        (Backup scriptFile scriptClient 5 demoSpec stallReads demoScript).file
        (Backup scriptFile scriptClient 5 demoSpec stallReads demoScript).backend ∧
      ∃ uploadId resp aborts,
        [Event.complete "bkt" "bk" "u1" ⟨[⟨1, "e1"⟩]⟩ (Except.ok ()),
            Event.abort "bkt" "bk" none, Event.abort "bkt" "bk" none]
          = Event.complete (demoSpec.metadata "bucket") demoSpec.Id uploadId
              ⟨List.zipWith Part.mk
                (List.range' 1 (ackedETags [Event.init "bkt" "bk" (Except.ok ⟨"u1"⟩),
                  Event.read 2 none,
                  Event.uploadPart "bkt" "bk" 1 "u1" [1, 2] 2 (Except.ok ⟨"e1"⟩)]).length)
                (ackedETags [Event.init "bkt" "bk" (Except.ok ⟨"u1"⟩),
                  Event.read 2 none,
                  Event.uploadPart "bkt" "bk" 1 "u1" [1, 2] 2 (Except.ok ⟨"e1"⟩)])⟩
              resp :: aborts ∧
        (∀ x ∈ aborts, x.isAbort = true) ∧
        (Backup scriptFile scriptClient 5 demoSpec stallReads demoScript).ret
          = Status.returned (errorOf resp) :=
  ⟨rfl,
    (zero_byte_read_ends_loop scriptFile scriptClient 5 demoSpec stallReads demoScript).1,
    (zero_byte_read_ends_loop scriptFile scriptClient 5 demoSpec stallReads demoScript).2.2
      [Event.init "bkt" "bk" (Except.ok ⟨"u1"⟩),
        Event.read 2 none,
        Event.uploadPart "bkt" "bk" 1 "u1" [1, 2] 2 (Except.ok ⟨"e1"⟩)]
      [Event.complete "bkt" "bk" "u1" ⟨[⟨1, "e1"⟩]⟩ (Except.ok ()),
        Event.abort "bkt" "bk" none, Event.abort "bkt" "bk" none]
      0 none rfl (Or.inr ⟨rfl, rfl⟩)⟩

/-- C8: on a regular file of `L` bytes (reads of `min (UploadChunkSize, remaining)` bytes,
`io.EOF` only with zero bytes), with enough loop iterations allowed (one per chunk and one
for the read that signals `io.EOF`), in a run in which no call fails, `Backup` returns nil and
the data of the `UploadPart` calls, in call order, are the consecutive slices of
`UploadChunkSize` bytes of the file: there are `ceil (L / UploadChunkSize)` of them, each of
at most `UploadChunkSize` bytes, their concatenation is the file, they carry the sequence
numbers `1, 2, ...` in order, and the one completion call lists all of them in order. The
trace is the sequence of calls applied to the file and the client, so these are the payloads
and the manifest the client receives. -/
theorem file_is_uploaded_in_chunks {β : Type} (c : Client β) (fuel : Nat)
    (backup : BackupSpec) (bytes : List UInt8) (b : β)
    (hfuel : (bytes.length + UploadChunkSize - 1) / UploadChunkSize + 1 ≤ fuel)
    (hok : ∀ e ∈ (Backup memFile c fuel backup bytes b).trace, e.failure = none) :
    Issued memFile c (Backup memFile c fuel backup bytes b).trace bytes b
        (Backup memFile c fuel backup bytes b).file
        (Backup memFile c fuel backup bytes b).backend ∧
      (Backup memFile c fuel backup bytes b).ret = Status.returned none ∧
      uploadPayloads (Backup memFile c fuel backup bytes b).trace
        = (List.range ((bytes.length + UploadChunkSize - 1) / UploadChunkSize)).map
            (fun i => (bytes.drop (i * UploadChunkSize)).take UploadChunkSize) ∧
      (uploadPayloads (Backup memFile c fuel backup bytes b).trace).length
        = (bytes.length + UploadChunkSize - 1) / UploadChunkSize ∧
      (∀ p ∈ uploadPayloads (Backup memFile c fuel backup bytes b).trace,
        p.length ≤ UploadChunkSize) ∧
      (uploadPayloads (Backup memFile c fuel backup bytes b).trace).flatten = bytes ∧
      uploadNumbers (Backup memFile c fuel backup bytes b).trace
        = List.range' 1 ((bytes.length + UploadChunkSize - 1) / UploadChunkSize) ∧
      completeInputs (Backup memFile c fuel backup bytes b).trace
        = [List.zipWith Part.mk
            (List.range' 1 ((bytes.length + UploadChunkSize - 1) / UploadChunkSize))
            (ackedETags (Backup memFile c fuel backup bytes b).trace)] := by
  refine ⟨Backup_issued memFile c fuel backup bytes b, ?_⟩
  rcases hi : c.InitMultiPartUpload b (backup.metadata "bucket") backup.Id with ⟨iresp, b1⟩
  cases iresp with
  | error err =>
    have hbad := hok (Event.init (backup.metadata "bucket") backup.Id (Except.error err))
      (by simp only [Backup, hi, List.mem_singleton])
    exact absurd hbad (by simp [Event.failure])
  | ok ir =>
    obtain ⟨rest, hrest⟩ := Backup_trace_of_init_ok memFile c fuel backup bytes b b1 ir hi
    obtain ⟨⟨ps, hx⟩, hpay, hjoin, hle, -⟩ := memFile_loop c (backup.metadata "bucket")
      backup.Id ir.UploadId fuel 1 [] bytes b1 hfuel
      (fun e he => hok e (by
        rw [hrest]
        exact List.mem_cons_of_mem _ (List.mem_append_left _ he)))
    rcases hc : c.CompleteMultipartUpload
        (uploadLoop memFile c (backup.metadata "bucket") backup.Id ir.UploadId fuel 1 [] bytes
          b1).backend
        (backup.metadata "bucket") backup.Id ir.UploadId ⟨ps⟩ with ⟨cr, b2⟩
    cases cr with
    | error err =>
      have hbad := hok (Event.complete (backup.metadata "bucket") backup.Id ir.UploadId ⟨ps⟩
        (Except.error err)) (by simp only [Backup, hi, hx, hc]; simp)
      exact absurd hbad (by simp [Event.failure])
    | ok u =>
      have hret : (Backup memFile c fuel backup bytes b).ret = Status.returned none := by
        simp only [Backup, hi, hx, hc]
      have htr : (Backup memFile c fuel backup bytes b).trace
          = Event.init (backup.metadata "bucket") backup.Id (Except.ok ir) ::
              ((uploadLoop memFile c (backup.metadata "bucket") backup.Id ir.UploadId fuel 1 []
                  bytes b1).events ++
                [Event.complete (backup.metadata "bucket") backup.Id ir.UploadId ⟨ps⟩
                    (Except.ok u),
                  Event.abort (backup.metadata "bucket") backup.Id
                    (c.AbortMultipartUpload b2 (backup.metadata "bucket") backup.Id).1,
                  Event.abort (backup.metadata "bucket") backup.Id
                    (c.AbortMultipartUpload
                      (c.AbortMultipartUpload b2 (backup.metadata "bucket") backup.Id).2
                      (backup.metadata "bucket") backup.Id).1]) := by
        simp only [Backup, hi, hx, hc]
      have hP : uploadPayloads (Backup memFile c fuel backup bytes b).trace
          = uploadPayloads (uploadLoop memFile c (backup.metadata "bucket") backup.Id
              ir.UploadId fuel 1 [] bytes b1).events := by
        have e1 : ∀ t, uploadPayloads (Event.init (backup.metadata "bucket") backup.Id
            (Except.ok ir) :: t) = uploadPayloads t := fun _ => rfl
        rw [htr, e1, uploadPayloads_append]
        exact List.append_nil _
      have hs := Backup_shape memFile c fuel backup bytes b
      rw [hret] at hs
      obtain ⟨ir0, rounds, size, rerr, u0, a, d, -, htr2⟩ := shape_success hs
      obtain ⟨o1, o2, o3, o4⟩ := success_trace_observers _ _ ir0 rounds size rerr u0 a d _ htr2
      have hlen : rounds.length
          = (bytes.length + UploadChunkSize - 1) / UploadChunkSize := by
        have h := congrArg List.length (o1.symm.trans (hP.trans hpay))
        rw [List.length_map, List.length_map, List.length_range] at h
        exact h
      refine ⟨hret, hP.trans hpay, ?_, ?_, ?_, ?_, ?_⟩
      · rw [hP, hpay, List.length_map, List.length_range]
      · rw [hP]; exact hle
      · rw [hP]; exact hjoin
      · rw [o2, hlen]
      · rw [o4, o3, roundParts_eq, hlen]

/-- C8 at concrete runs: on the scripted backend, whose answers depend on its state, a file
of three bytes is uploaded as one part; and a file of 120 MiB is uploaded as parts of 50, 50
and 20 MiB with the sequence numbers 1, 2, 3, and `Backup` returns nil. -/
theorem file_is_uploaded_in_chunks_witness :
    ((Backup memFile scriptClient 2 demoSpec [1, 2, 3] demoScript).ret = Status.returned none ∧
      uploadPayloads (Backup memFile scriptClient 2 demoSpec [1, 2, 3] demoScript).trace
        = (List.range ((([1, 2, 3] : List UInt8).length + UploadChunkSize - 1)
            / UploadChunkSize)).map
            (fun i => (([1, 2, 3] : List UInt8).drop (i * UploadChunkSize)).take
              UploadChunkSize) ∧
      (uploadPayloads
        (Backup memFile scriptClient 2 demoSpec [1, 2, 3] demoScript).trace).flatten
        = [1, 2, 3]) ∧
      (Backup memFile okClient 4 demoSpec (List.replicate (120 * 1024 * 1024) 0) ()).ret
        = Status.returned none ∧
      (uploadPayloads
          (Backup memFile okClient 4 demoSpec (List.replicate (120 * 1024 * 1024) 0) ()).trace).map
          List.length
        = [50 * 1024 * 1024, 50 * 1024 * 1024, 20 * 1024 * 1024] ∧
      uploadNumbers
          (Backup memFile okClient 4 demoSpec (List.replicate (120 * 1024 * 1024) 0) ()).trace
        = [1, 2, 3] := by
  have small := file_is_uploaded_in_chunks scriptClient 2 demoSpec [1, 2, 3] demoScript
    (by rw [UploadChunkSize_eq]; decide)
    (by
      rw [show (Backup memFile scriptClient 2 demoSpec [1, 2, 3] demoScript).trace
        = [Event.init "bkt" "bk" (Except.ok ⟨"u1"⟩),
            Event.read 3 none,
            Event.uploadPart "bkt" "bk" 1 "u1" [1, 2, 3] 3 (Except.ok ⟨"e1"⟩),
            Event.read 0 (some GoError.EOF),
            Event.complete "bkt" "bk" "u1" ⟨[⟨1, "e1"⟩]⟩ (Except.ok ()),
            Event.abort "bkt" "bk" none, Event.abort "bkt" "bk" none] from rfl]
      simp [Event.failure])
  have key : ∀ bytes : List UInt8, bytes.length = 120 * 1024 * 1024 →
      (Backup memFile okClient 4 demoSpec bytes ()).ret = Status.returned none ∧
      (uploadPayloads (Backup memFile okClient 4 demoSpec bytes ()).trace).map List.length
        = [50 * 1024 * 1024, 50 * 1024 * 1024, 20 * 1024 * 1024] ∧
      uploadNumbers (Backup memFile okClient 4 demoSpec bytes ()).trace = [1, 2, 3] := by
    intro bytes hL
    have hceil : (bytes.length + UploadChunkSize - 1) / UploadChunkSize = 3 := by
      rw [hL, UploadChunkSize_eq]
    have h := file_is_uploaded_in_chunks okClient 4 demoSpec bytes ()
      (by rw [hceil]) (okClient_no_failure 4 demoSpec bytes)
    rw [hceil] at h
    refine ⟨h.2.1, ?_, h.2.2.2.2.2.2.1⟩
    rw [h.2.2.1, UploadChunkSize_eq]
    simp [List.range_succ, List.length_take, List.length_drop, hL]
  exact ⟨⟨small.2.1, small.2.2.1, small.2.2.2.2.2.1⟩, key _ (List.length_replicate _ _)⟩

end Multicloud
